import Mathlib

/-!
# Verification of the EXT_bmesh_encoding codec

Shallow embedding of the buffer-based BMesh encoder/decoder found in
`src/io_scene_vrm/editor/bmesh_encoding/encoding.py` (class `BmeshEncoder`) and
`src/io_scene_vrm/editor/bmesh_encoding/decoding.py` (class `BmeshDecoder`).

Modelling conventions:
* f32 scalars are modelled as exact rationals (`ℚ`).  The Python code packs
  Blender-provided f32 values with `struct.pack("<f")` and unpacks them with
  `struct.unpack`, which is lossless on values that are already f32, so the
  pack/unpack pair is modelled as the identity on the stored scalars.
* byte buffers are modelled as typed component lists (one list entry per f32 /
  u32 / u8 component).  `struct.unpack(f"<{n}X", data)` raises `struct.error`
  exactly when `len(data) != n * size(X)`; in the model this is a length check
  on the component list (`unpackF` / `unpackU`), failing with `malformedBuffer`.
* the BMesh handed to the encoder is an arena of vertices (positions), edges
  (unordered vertex-index pairs), faces (ordered vertex-index lists), plus the
  host-computed per-face normals, per-face material indices and one optional
  UV layer listed in global (face-major) loop order.
* derived BMesh adjacency (`edge.link_faces`, `vert.link_edges`, `loop.edge`,
  `face.edges`) is recomputed from the arena in the host's face/edge order.
-/

namespace AriaBmesh

/-- Exact 3-component vector standing in for Blender `Vector`/f32 triples. -/
structure Vec3 where
  x : ℚ
  y : ℚ
  z : ℚ
  deriving DecidableEq

/-- Componentwise subtraction, as `mathutils.Vector.__sub__`. -/
def vsub (a b : Vec3) : Vec3 := ⟨a.x - b.x, a.y - b.y, a.z - b.z⟩

/-- Cross product, as `mathutils.Vector.cross`. -/
def cross (a b : Vec3) : Vec3 :=
  ⟨a.y * b.z - a.z * b.y, a.z * b.x - a.x * b.z, a.x * b.y - a.y * b.x⟩

/-- Squared euclidean norm.  `Vector.length < c` (for `c > 0`) is modelled as
`normSq v < c^2`, which is an exact reformulation. -/
def normSq (a : Vec3) : ℚ := a.x ^ 2 + a.y ^ 2 + a.z ^ 2

/-- The mesh source: a Blender `BMesh` as seen by `BmeshEncoder`.
`uvs` is the active UV layer (`bm.loops.layers.uv`), indexed by global loop
index (faces in order, loops within each face in order); the decoder only ever
applies `TEXCOORD_0`, so a single layer is modelled. -/
structure BMeshSrc where
  verts : List Vec3
  edges : List (Nat × Nat)
  faces : List (List Nat)
  faceNormals : List Vec3
  faceMats : List Nat
  uvs : Option (List (ℚ × ℚ))
  deriving DecidableEq

/-- Unordered equality of vertex-index pairs (BMesh edges are unordered). -/
def pairEqB (p q : Nat × Nat) : Bool :=
  (p.1 == q.1 && p.2 == q.2) || (p.1 == q.2 && p.2 == q.1)

/-- The edge of corner `i` of face `f`: the unordered pair of `f[i]` and the
cyclically next vertex (this is `loop.edge` for the i-th loop of the face). -/
def facePair (f : List Nat) (i : Nat) : Nat × Nat :=
  (f.getD i 0, f.getD ((i + 1) % f.length) 0)

/-- Whether face `f` uses edge `p` (some corner's edge equals `p`). -/
def faceUsesPairB (f : List Nat) (p : Nat × Nat) : Bool :=
  (List.range f.length).any fun i => pairEqB (facePair f i) p

/-- `edge.link_faces` for edge `p`: indices of the faces using `p`, in face
order. -/
def linkFaceIdxs (faces : List (List Nat)) (p : Nat × Nat) : List Nat :=
  (List.range faces.length).filter fun k => faceUsesPairB (faces.getD k []) p

/-- Index of edge `p` in the edge arena (`loop.edge.index`). -/
def findEdgeIdx (edges : List (Nat × Nat)) (p : Nat × Nat) : Option Nat :=
  (List.range edges.length).find? fun j => pairEqB (edges.getD j (0, 0)) p

/-- `vert.link_edges` for vertex `v`: indices of edges touching `v`. -/
def vertLinkEdgeIdxs (edges : List (Nat × Nat)) (v : Nat) : List Nat :=
  (List.range edges.length).filter fun j =>
    (edges.getD j (0, 0)).1 == v || (edges.getD j (0, 0)).2 == v

/-- Flatten vectors into the f32 component stream packed by
`struct.Struct("<fff").pack(*v)` appended in a loop. -/
def vecsToFlat : List Vec3 → List ℚ
  | [] => []
  | v :: vs => v.x :: v.y :: v.z :: vecsToFlat vs

/-- Flatten scalar pairs into a component stream (`struct.Struct("<ff")` /
`("<II")`). -/
def pairsToFlat {α : Type} : List (α × α) → List α
  | [] => []
  | p :: ps => p.1 :: p.2 :: pairsToFlat ps

/-! ## Wire sections (the `ComponentSet`)

One structure per top-level key of the extension dict built by
`BmeshEncoder._encode_to_buffer_format`.  Fields that the encoder emits only
conditionally (`if buffer:`) are `Option`s; the `count` entries mirror the
`"count"` values written by the encoder and read back via `.get("count", 0)`
by the decoder.  `smoothData` on edges models the `attributes["_SMOOTH"]`
buffer and `smoothData` on faces the `"smooth"` buffer: both are decode-only
inputs the encoder never writes. -/

structure VerticesSection where
  count : Nat
  positionsData : List ℚ
  vertEdgesData : Option (List Nat)
  deriving DecidableEq

structure EdgesSection where
  count : Nat
  verticesData : List Nat
  facesData : Option (List Nat)
  manifoldData : Option (List Nat)
  smoothData : Option (List Nat)
  deriving DecidableEq

structure LoopsSection where
  count : Nat
  topologyData : List Nat
  uv0Data : Option (List ℚ)
  deriving DecidableEq

structure FacesSection where
  count : Nat
  verticesData : List Nat
  offsetsData : List Nat
  faceEdgesData : Option (List Nat)
  faceLoopsData : Option (List Nat)
  normalsData : Option (List ℚ)
  smoothData : Option (List Nat)
  deriving DecidableEq

/-- The extension dict: each key present iff the encoder emitted the section
(`{}` from Python is all-`none`). -/
structure ExtensionData where
  vertices : Option VerticesSection
  edges : Option EdgesSection
  loops : Option LoopsSection
  faces : Option FacesSection
  deriving DecidableEq

/-! ## Encoder (`encoding.py`) -/

/-- `BmeshEncoder._encode_vertices_to_buffers`. -/
def encodeVerticesToBuffers (m : BMeshSrc) : Option VerticesSection :=
  if m.verts.isEmpty then none
  else
    let adj := ((List.range m.verts.length).map fun v => vertLinkEdgeIdxs m.edges v).flatten
    some { count := m.verts.length
           positionsData := vecsToFlat m.verts
           vertEdgesData := if adj.isEmpty then none else some adj }

/-- `BmeshEncoder._calculate_edge_manifold_status`: `some true` = manifold
(exactly 2 linked faces), `some false` = non-manifold, `none` = unknown
(manifold computation disabled via `preserve_manifold_info`). -/
def calculateEdgeManifoldStatus (preserve : Bool) (faces : List (List Nat))
    (p : Nat × Nat) : Option Bool :=
  if !preserve then none else some ((linkFaceIdxs faces p).length == 2)

/-- The u8 written for a manifold status (1 manifold / 0 non-manifold /
255 unknown), from `_encode_edges_to_buffers`. -/
def manifoldByte : Option Bool → Nat
  | some true => 1
  | some false => 0
  | none => 255

/-- `BmeshEncoder._encode_edges_to_buffers`. -/
def encodeEdgesToBuffers (preserve : Bool) (m : BMeshSrc) : Option EdgesSection :=
  if m.edges.isEmpty then none
  else
    let fd := (m.edges.map fun p => linkFaceIdxs m.faces p).flatten
    let md := m.edges.map fun p => manifoldByte (calculateEdgeManifoldStatus preserve m.faces p)
    some { count := m.edges.length
           verticesData := pairsToFlat m.edges
           facesData := if fd.isEmpty then none else some fd
           manifoldData := if md.isEmpty then none else some md
           smoothData := none }

/-- Total number of loops of the mesh (`sum(len(face.loops) for face in bm.faces)`). -/
def totalLoopsSrc (m : BMeshSrc) : Nat := (m.faces.map List.length).sum

/-- The global loop index of corner `ci` of face `fi`
(`loop_index_map[(face.index, i)]` in `_encode_loops_to_buffers`). -/
def loopIndexMap (m : BMeshSrc) (fi ci : Nat) : Nat :=
  ((m.faces.take fi).map List.length).sum + ci

/-- First corner of face `f` whose edge is `p` (the
`for i, other_loop in enumerate(other_face.loops): if other_loop.edge == edge`
search). -/
def firstMatchingCorner (f : List Nat) (p : Nat × Nat) : Option Nat :=
  (List.range f.length).find? fun i => pairEqB (facePair f i) p

/-- `BmeshEncoder._find_radial_loop_indices`. -/
def findRadialLoopIndices (m : BMeshSrc) (fi ci cur : Nat) : Nat × Nat :=
  let f := m.faces.getD fi []
  let p := facePair f ci
  let linked := linkFaceIdxs m.faces p
  if linked.length ≤ 1 then (cur, cur)
  else
    match linked.filter (fun k => k ≠ fi) with
    | [] => (cur, cur)
    | ofi :: _ =>
      match firstMatchingCorner (m.faces.getD ofi []) p with
      | some j => (loopIndexMap m ofi j, loopIndexMap m ofi j)
      | none => (cur, cur)

/-- The 7 u32 topology components packed for one loop:
vertex, edge, face, next, prev, radial_next, radial_prev. -/
def loopTopologyEntry (m : BMeshSrc) (fi ci : Nat) : List Nat :=
  let f := m.faces.getD fi []
  let cur := loopIndexMap m fi ci
  let nxt := loopIndexMap m fi ((ci + 1) % f.length)
  let prv := loopIndexMap m fi ((ci + f.length - 1) % f.length)
  let r := findRadialLoopIndices m fi ci cur
  [f.getD ci 0, (findEdgeIdx m.edges (facePair f ci)).getD 0, fi, nxt, prv, r.1, r.2]

/-- `BmeshEncoder._encode_loops_to_buffers`. -/
def encodeLoopsToBuffers (m : BMeshSrc) : Option LoopsSection :=
  let lc := totalLoopsSrc m
  if lc = 0 then none
  else
    some { count := lc
           topologyData :=
             ((List.range m.faces.length).map fun fi =>
               ((List.range (m.faces.getD fi []).length).map fun ci =>
                 loopTopologyEntry m fi ci).flatten).flatten
           uv0Data := match m.uvs with
             | none => none
             | some uvl => some (pairsToFlat uvl) }

/-- The CSR offsets array of `_encode_faces_to_buffers`: one running offset
per face plus the final total. -/
def facesOffsetsAux : List (List Nat) → Nat → List Nat
  | [], off => [off]
  | f :: fs, off => off :: facesOffsetsAux fs (off + f.length)

/-- `BmeshEncoder._encode_faces_to_buffers`. -/
def encodeFacesToBuffers (m : BMeshSrc) : Option FacesSection :=
  if m.faces.isEmpty then none
  else
    let ed := (m.faces.map fun f =>
      (List.range f.length).map fun i => (findEdgeIdx m.edges (facePair f i)).getD 0).flatten
    let ld := List.range (totalLoopsSrc m)
    let nd := vecsToFlat m.faceNormals
    some { count := m.faces.length
           verticesData := m.faces.flatten
           offsetsData := facesOffsetsAux m.faces 0
           faceEdgesData := if ed.isEmpty then none else some ed
           faceLoopsData := if ld.isEmpty then none else some ld
           normalsData := if nd.isEmpty then none else some nd
           smoothData := none }

/-- `BmeshEncoder.encode_bmesh_to_gltf_extension` (with
`_encode_to_buffer_format` inlined): returns `{}` when the mesh has no faces,
otherwise the four sections, each present iff its builder returned data. -/
def encodeBmeshToGltfExtension (preserve : Bool) (m : BMeshSrc) : ExtensionData :=
  if m.faces.isEmpty then ⟨none, none, none, none⟩
  else
    ⟨encodeVerticesToBuffers m, encodeEdgesToBuffers preserve m,
     encodeLoopsToBuffers m, encodeFacesToBuffers m⟩

/-! ## Triangle-fan fallback codec (`encode_triangle_fan_implicit`)

Triangles are triples of vertex indices (standing for the `BMLoop` triples of
the source, whose geometric payload is the loops' vertex positions) paired
with the face's material index.

Two sub-computations of the robust path call host geometry routines that are
irreducibly `sqrt`-valued and are therefore passed in as oracle inputs:
* `faceValid fi` is the result of `_validate_face_geometry` for face `fi`
  (it compares `face.calc_area()` and `face.normal.length` against 1e-8);
* `anchorSel fi` is the corner index chosen by `_select_optimal_anchor_loop`
  for face `fi` (a heuristic scored with euclidean distances).
Every theorem below quantifies over both oracles, so it holds in particular
for the concrete host computations. -/

/-- Position of vertex `v` of mesh `m`. -/
def posOf (m : BMeshSrc) (v : Nat) : Vec3 := m.verts.getD v ⟨0, 0, 0⟩

/-- `BmeshEncoder._validate_triangle_geometry` on the three corner positions:
rejects if two corners coincide within 1e-8 (`(vi - vj).length < 1e-8`) or the
triangle area `|cross|/2` is not above 1e-8.  Lengths are compared via their
squares (exact for non-negative reals). -/
def validateTriangleGeometry (v0 v1 v2 : Vec3) : Bool :=
  if normSq (vsub v0 v1) < 1 / 10 ^ 16 ∨ normSq (vsub v1 v2) < 1 / 10 ^ 16 ∨
      normSq (vsub v2 v0) < 1 / 10 ^ 16 then
    false
  else
    decide (4 / 10 ^ 16 < normSq (cross (vsub v1 v0) (vsub v2 v0)))

/-- One fan candidate of `_create_robust_triangle_fan`:
`(anchor, face_loops[(anchor+i) % n], face_loops[(anchor+i+1) % n])`. -/
def fanCandidate (fvs : List Nat) (anchorIdx i : Nat) : Nat × Nat × Nat :=
  (fvs.getD anchorIdx 0,
   fvs.getD ((anchorIdx + i) % fvs.length) 0,
   fvs.getD ((anchorIdx + i + 1) % fvs.length) 0)

/-- `BmeshEncoder._create_robust_triangle_fan` for one n-gon: empty if the
face failed `_validate_face_geometry`, otherwise the candidates for
`i in range(1, n-1)` that pass `_validate_triangle_geometry`. -/
def createRobustTriangleFan (m : BMeshSrc) (faceValid : Bool) (anchorIdx : Nat)
    (fvs : List Nat) (mi : Nat) : List (Nat × (Nat × Nat × Nat)) :=
  if !faceValid then []
  else
    (List.range' 1 (fvs.length - 2)).filterMap fun i =>
      let t := fanCandidate fvs anchorIdx i
      if validateTriangleGeometry (posOf m t.1) (posOf m t.2.1) (posOf m t.2.2) then
        some (mi, t)
      else none

/-- `BmeshEncoder._create_simple_triangle_fan`: unvalidated first-corner fan,
triangles `(fvs[0], fvs[i-1], fvs[i])` for `i in range(2, n)`. -/
def createSimpleTriangleFan (fvs : List Nat) (mi : Nat) : List (Nat × (Nat × Nat × Nat)) :=
  (List.range' 2 (fvs.length - 2)).map fun i =>
    (mi, (fvs.getD 0 0, fvs.getD (i - 1) 0, fvs.getD i 0))

/-- `BmeshEncoder.encode_triangle_fan_implicit`: per face, skip degenerate
(≤ 2 corner) faces, emit 3-corner faces directly, fan n-gons through the
robust path and fall back to the simple fan when it produced nothing. -/
def encodeTriangleFanImplicit (m : BMeshSrc) (faceValid : Nat → Bool)
    (anchorSel : Nat → Nat) : List (Nat × (Nat × Nat × Nat)) :=
  ((List.range m.faces.length).map fun fi =>
    let fvs := m.faces.getD fi []
    let mi := m.faceMats.getD fi 0
    if fvs.length ≤ 2 then []
    else if fvs.length = 3 then
      [(mi, (fvs.getD 0 0, fvs.getD 1 0, fvs.getD 2 0))]
    else
      let fan := createRobustTriangleFan m (faceValid fi) (anchorSel fi) fvs mi
      if fan.isEmpty then createSimpleTriangleFan fvs mi else fan).flatten

/-! ## Decoder (`decoding.py`) -/

/-- Decode failure raised inside the reconstruction helpers.
`malformedBuffer` is the `struct.error` raised by `struct.unpack` when the
byte length does not match the declared count (the spec's `MalformedBuffer`).
`_decode_encoded_data_to_bmesh` catches it and surfaces `None`. -/
inductive DecodeErr
  | malformedBuffer
  deriving DecidableEq

/-- `struct.unpack(f"<{n}f", data)`: all `n` f32 components, or `struct.error`
when the buffer length does not match. -/
def unpackF (data : List ℚ) (n : Nat) : Except DecodeErr (List ℚ) :=
  if data.length = n then .ok data else .error .malformedBuffer

/-- `struct.unpack` for u32/u8 component streams. -/
def unpackU (data : List Nat) (n : Nat) : Except DecodeErr (List Nat) :=
  if data.length = n then .ok data else .error .malformedBuffer

/-- The `for i in range(vertex_count)` regrouping of the unpacked position
stream into one `(x, y, z)` per vertex. -/
def flatToVecs : Nat → List ℚ → List Vec3
  | 0, _ => []
  | n + 1, d => ⟨d.getD 0 0, d.getD 1 0, d.getD 2 0⟩ :: flatToVecs n (d.drop 3)

/-- `BmeshDecoder._reconstruct_vertices_from_direct_data`: one `bm.verts.new`
per declared index, or `struct.error` before any vertex is created. -/
def reconstructVerticesFromDirectData (vd : VerticesSection) :
    Except DecodeErr (List Vec3) :=
  if vd.count = 0 then .ok []
  else do
    let pos ← unpackF vd.positionsData (vd.count * 3)
    .ok (flatToVecs vd.count pos)

/-- A reconstructed BMesh edge (`bm.edges.new`); Blender's default for
`BMEdge.smooth` is `true`. -/
structure DEdge where
  a : Nat
  b : Nat
  smooth : Bool
  deriving DecidableEq

/-- A reconstructed BMesh face (`bm.faces.new`); Blender's default for
`BMFace.smooth` is `false`. -/
structure DFace where
  verts : List Nat
  smooth : Bool
  deriving DecidableEq

/-- The reconstructed BMesh built by `_decode_encoded_data_to_bmesh`. -/
structure BMeshD where
  verts : List Vec3
  edges : List DEdge
  faces : List DFace
  uvs : Option (List (ℚ × ℚ))
  deriving DecidableEq

/-- The `set(existing_edge.verts) == {vert1, vert2}` test (Python set
equality of the two unordered endpoint sets). -/
def edgeSetEqB (e : DEdge) (a b : Nat) : Bool :=
  (e.a == a && e.b == b) || (e.a == b && e.b == a)

/-- The `for existing_edge in bm.edges` search for an edge with the given
endpoint set; returns its index. -/
def findExistingEdge (edges : List DEdge) (a b : Nat) : Option Nat :=
  (List.range edges.length).find? fun j => edgeSetEqB (edges.getD j ⟨0, 0, true⟩) a b

/-- State of the edge reconstruction loop: the BMesh edge arena so far, the
`edge_map` entry per input edge (in input order; `none` = not mapped), and the
number of skip warnings reported through the caller-visible result.  The
source's skip branch (`if vert1 and vert2:` with no `else`) emits no log or
report at all, so no step of the loop increments the counter. -/
structure EdgeRecState where
  edges : List DEdge
  emap : List (Option Nat)
  skipWarnings : Nat
  deriving DecidableEq

/-- One iteration of the `for i in range(edge_count)` loop of
`_reconstruct_edges_from_direct_data`:  resolve both endpoints, silently skip
the edge when either is out of range, try `bm.edges.new` and on `ValueError`
(self-loop or duplicate) fall back to the linear search for the existing
edge. -/
def reconEdgeStep (nverts : Nat) (pairs : List Nat) (flags : Option (List Nat))
    (st : EdgeRecState) (i : Nat) : EdgeRecState :=
  let a := pairs.getD (2 * i) 0
  let b := pairs.getD (2 * i + 1) 0
  if a < nverts ∧ b < nverts then
    if a ≠ b ∧ findExistingEdge st.edges a b = none then
      let sm := match flags with
        | some fl => if i < fl.length then fl.getD i 0 != 0 else true
        | none => true
      { st with edges := st.edges ++ [⟨a, b, sm⟩]
                emap := st.emap ++ [some st.edges.length] }
    else
      match findExistingEdge st.edges a b with
      | some j =>
        let e := st.edges.getD j ⟨0, 0, true⟩
        let sm := match flags with
          | some fl => if i < fl.length then fl.getD i 0 != 0 else e.smooth
          | none => e.smooth
        { st with edges := st.edges.set j ⟨e.a, e.b, sm⟩
                  emap := st.emap ++ [some j] }
      | none => { st with emap := st.emap ++ [none] }
  else
    { st with emap := st.emap ++ [none] }

/-- `BmeshDecoder._reconstruct_edges_from_direct_data`. -/
def reconstructEdgesFromDirectData (ed : EdgesSection) (nverts : Nat) :
    Except DecodeErr EdgeRecState :=
  if ed.count = 0 then .ok ⟨[], [], 0⟩
  else do
    let pairs ← unpackU ed.verticesData (ed.count * 2)
    if pairs.isEmpty then .ok ⟨[], [], 0⟩
    else do
      let flags ← match ed.smoothData with
        | none => pure none
        | some sd => do
            let f ← unpackU sd ed.count
            pure (some f)
      .ok ((List.range ed.count).foldl (reconEdgeStep nverts pairs flags) ⟨[], [], 0⟩)

/-- Python set equality of two vertex-index lists (the "face already exists"
test of `bm.faces.new`). -/
def listSetEqB (l1 l2 : List Nat) : Bool :=
  (l1.all fun v => l2.contains v) && (l2.all fun v => l1.contains v)

/-- Whether some already-created face uses exactly this vertex set. -/
def faceSetExists (faces : List DFace) (fv : List Nat) : Bool :=
  faces.any fun g => listSetEqB g.verts fv

/-- `bm.faces.new` implicitly creates the boundary edges that do not exist
yet (in corner order). -/
def addFaceEdges (edges : List DEdge) (fv : List Nat) : List DEdge :=
  (List.range fv.length).foldl
    (fun es i =>
      let a := fv.getD i 0
      let b := fv.getD ((i + 1) % fv.length) 0
      match findExistingEdge es a b with
      | some _ => es
      | none => es ++ [⟨a, b, true⟩])
    edges

/-- State of the face reconstruction loop: edge arena (grown by implicit edge
creation), face arena, and the `face_map` entry per input face. -/
structure FaceRecState where
  edges : List DEdge
  faces : List DFace
  fmap : List (Option Nat)
  deriving DecidableEq

/-- One iteration of the `for i in range(face_count)` loop of
`_reconstruct_faces_from_direct_data`: slice the CSR range (Python slice
semantics clamp out-of-range bounds), drop unresolved vertex indices, require
at least 3 resolved vertices, and let `bm.faces.new` fail (skip with a logged
warning) on repeated vertices or an already existing face. -/
def reconFaceStep (nverts : Nat) (offsets flat : List Nat) (flags : Option (List Nat))
    (st : FaceRecState) (i : Nat) : FaceRecState :=
  let start := offsets.getD i 0
  let stop := offsets.getD (i + 1) 0
  let slice := (flat.drop start).take (stop - start)
  let fverts := slice.filter fun v => decide (v < nverts)
  if 3 ≤ fverts.length then
    if fverts.Nodup ∧ faceSetExists st.faces fverts = false then
      let sm := match flags with
        | some fl => if i < fl.length then fl.getD i 0 != 0 else false
        | none => false
      ⟨addFaceEdges st.edges fverts, st.faces ++ [⟨fverts, sm⟩],
       st.fmap ++ [some st.faces.length]⟩
    else ⟨st.edges, st.faces, st.fmap ++ [none]⟩
  else ⟨st.edges, st.faces, st.fmap ++ [none]⟩

/-- `BmeshDecoder._reconstruct_faces_from_direct_data`. -/
def reconstructFacesFromDirectData (fd : FacesSection) (nverts : Nat)
    (edges0 : List DEdge) : Except DecodeErr FaceRecState :=
  if fd.count = 0 then .ok ⟨edges0, [], []⟩
  else do
    let offsets ← unpackU fd.offsetsData (fd.count + 1)
    if offsets.isEmpty then .ok ⟨edges0, [], []⟩
    else do
      let maxOff := offsets.getD fd.count 0
      let flat ← unpackU fd.verticesData maxOff
      if flat.isEmpty then .ok ⟨edges0, [], []⟩
      else do
        let flags ← match fd.smoothData with
          | none => pure none
          | some sd => do
              let f ← unpackU sd fd.count
              pure (some f)
        .ok ((List.range fd.count).foldl (reconFaceStep nverts offsets flat flags)
          ⟨edges0, [], []⟩)

/-- Number of loops of the reconstructed mesh (one per face corner). -/
def totalLoopsD (faces : List DFace) : Nat := (faces.map fun f => f.verts.length).sum

/-- `BmeshDecoder._apply_loop_data_from_direct_data`, restricted to the UV
payload it actually applies: the decoder unpacks the `TEXCOORD_*` attributes
but only ever applies `TEXCOORD_0`, walking the reconstructed faces' loops in
order with a running global loop index.  The `topology` buffer of the loops
section is never read.  A fresh UV layer initialises to `(0, 0)`. -/
def applyLoopDataFromDirectData (faces : List DFace) (ld : LoopsSection) :
    Except DecodeErr (Option (List (ℚ × ℚ))) :=
  match ld.uv0Data with
  | none => .ok none
  | some d => do
    let coords ← unpackF d (ld.count * 2)
    .ok (some ((List.range (totalLoopsD faces)).map fun k =>
      if k < ld.count ∧ 2 * k + 1 < coords.length then
        (coords.getD (2 * k) 0, coords.getD (2 * k + 1) 0)
      else (0, 0)))

/-- `BmeshDecoder._has_explicit_topology_data`: all four sections present. -/
def hasExplicitTopologyData (e : ExtensionData) : Bool :=
  e.vertices.isSome && e.edges.isSome && e.loops.isSome && e.faces.isSome

/-- Python truthiness of the extension dict (`if not extension_data`). -/
def extIsEmpty (e : ExtensionData) : Bool :=
  e.vertices.isNone && e.edges.isNone && e.loops.isNone && e.faces.isNone

/-- `BmeshDecoder._decode_encoded_data_to_bmesh`: reconstruct vertices,
edges, faces, then apply loop data; any `struct.error` raised inside is
caught by the surrounding `try`/`except` and surfaces as `None`. -/
def decodeEncodedDataToBmesh (ext : ExtensionData) : Option BMeshD :=
  match ext.vertices, ext.edges, ext.loops, ext.faces with
  | some vd, some ed, some ld, some fd =>
    match reconstructVerticesFromDirectData vd with
    | .error _ => none
    | .ok verts =>
      if verts.isEmpty then none
      else
        match reconstructEdgesFromDirectData ed verts.length with
        | .error _ => none
        | .ok est =>
          match reconstructFacesFromDirectData fd verts.length est.edges with
          | .error _ => none
          | .ok fstate =>
            if 0 < ld.count then
              match applyLoopDataFromDirectData fstate.faces ld with
              | .error _ => none
              | .ok uvs => some ⟨verts, fstate.edges, fstate.faces, uvs⟩
            else some ⟨verts, fstate.edges, fstate.faces, none⟩
  | _, _, _, _ => none

/-- `BmeshDecoder.decode_gltf_extension_to_bmesh`: `None` on a falsy dict,
direct-data reconstruction when explicit topology is present, `None`
otherwise. -/
def decodeGltfExtensionToBmesh (e : ExtensionData) : Option BMeshD :=
  if extIsEmpty e then none
  else if hasExplicitTopologyData e then decodeEncodedDataToBmesh e
  else none

/-! ## Applying a snapshot to the mesh sink
(`BmeshDecoder.apply_bmesh_to_blender_mesh`)

The sink and the host calls that mutate it live behind the `bpy` API; the
model makes each host call an explicit step that may raise (Python host calls
can raise, and the source's blanket `except` turns any such exception into a
`False` return without restoring the sink).  `bm.to_mesh(mesh)` is a single
host call replacing the sink's mesh datablock wholesale, modelled as an
atomic content swap. -/

/-- The host calls performed by `apply_bmesh_to_blender_mesh`, in order. -/
inductive ApplyStep
  | toMesh
  | setSmooth (i : Nat)
  | setAutoSmooth
  | updateMesh
  | calcLoopTriangles
  | calcNormals

/-- Host environment: Blender version branch and which host calls raise. -/
structure HostEnv where
  oldBlender : Bool
  fails : ApplyStep → Bool

/-- The mesh sink: current datablock content plus the derived-state flags the
finalisation calls set. -/
structure SinkMesh where
  content : Option BMeshD
  autoSmooth : Bool
  updated : Bool
  triangulated : Bool
  normalsComputed : Bool
  deriving DecidableEq

/-- The `mesh.update()` / `calc_loop_triangles()` / normal-recomputation tail
of `apply_bmesh_to_blender_mesh`. -/
def finalizeSink (env : HostEnv) (m : SinkMesh) : Bool × SinkMesh :=
  if env.fails .updateMesh then (false, m)
  else
    let m2 := { m with updated := true }
    if env.fails .calcLoopTriangles then (false, m2)
    else
      let m3 := { m2 with triangulated := true }
      if env.fails .calcNormals then (false, m3)
      else (true, { m3 with normalsComputed := true })

/-- `BmeshDecoder.apply_bmesh_to_blender_mesh`: store the snapshot's smooth
flags, `bm.to_mesh(mesh)`, re-transfer the smooth flags polygon by polygon
(no-ops on the content here since `to_mesh` already copied the face data, but
each write is a host call that may raise), the version-dependent auto-smooth
branch, then finalisation.  Any exception is caught and reported as `false`
with the sink left exactly as the completed steps left it. -/
def applyBmeshToBlenderMesh (env : HostEnv) (bm : BMeshD) (mesh : SinkMesh) :
    Bool × SinkMesh :=
  let flags := bm.faces.map fun f => f.smooth
  if env.fails .toMesh then (false, mesh)
  else
    let m1 : SinkMesh := { mesh with content := some bm }
    match (List.range flags.length).find? (fun i => env.fails (.setSmooth i)) with
    | some _ => (false, m1)
    | none =>
      if env.oldBlender ∧ flags.isEmpty then
        if env.fails .setAutoSmooth then (false, m1)
        else finalizeSink env { m1 with autoSmooth := true }
      else finalizeSink env m1

/-! ## Well-formedness of a mesh source

`WFMesh` collects the structural invariants every Blender `BMesh` satisfies
by construction (`bm.verts.new` / `bm.edges.new` / `bm.faces.new` enforce
them): faces have at least 3 pairwise distinct in-range vertices and pairwise
distinct vertex sets, edges are non-degenerate in-range pairs without
duplicates, every face boundary edge exists in the edge arena, and the UV
layer (when present) has one entry per loop. -/
def WFMesh (m : BMeshSrc) : Prop :=
  (∀ f ∈ m.faces, 3 ≤ f.length ∧ f.Nodup ∧ ∀ v ∈ f, v < m.verts.length) ∧
  m.faces.Pairwise (fun f g => listSetEqB f g = false) ∧
  (∀ p ∈ m.edges, p.1 ≠ p.2 ∧ p.1 < m.verts.length ∧ p.2 < m.verts.length) ∧
  m.edges.Pairwise (fun p q => pairEqB p q = false) ∧
  (∀ f ∈ m.faces, ∀ i, i < f.length → (findEdgeIdx m.edges (facePair f i)).isSome = true) ∧
  (∀ u, m.uvs = some u → u.length = totalLoopsSrc m)

instance (m : BMeshSrc) : Decidable (WFMesh m) := by
  unfold WFMesh
  infer_instance

/-- The `count` of the vertices section as the decoder reads it
(`extension_data.get("vertices", {}).get("count", 0)`). -/
def extVerticesCount (e : ExtensionData) : Nat :=
  match e.vertices with
  | some s => s.count
  | none => 0

/-- The `count` of the edges section as the decoder reads it. -/
def extEdgesCount (e : ExtensionData) : Nat :=
  match e.edges with
  | some s => s.count
  | none => 0

/-- The `count` of the loops section as the decoder reads it. -/
def extLoopsCount (e : ExtensionData) : Nat :=
  match e.loops with
  | some s => s.count
  | none => 0

/-- The `count` of the faces section as the decoder reads it. -/
def extFacesCount (e : ExtensionData) : Nat :=
  match e.faces with
  | some s => s.count
  | none => 0

/-- Decidable equality for `Except` results (not derived in core). -/
instance exceptDecEq {e a : Type} [DecidableEq e] [DecidableEq a] :
    DecidableEq (Except e a)
  | .ok x, .ok y =>
    if h : x = y then isTrue (by rw [h]) else isFalse (by intro hc; cases hc; exact h rfl)
  | .error x, .error y =>
    if h : x = y then isTrue (by rw [h]) else isFalse (by intro hc; cases hc; exact h rfl)
  | .ok _, .error _ => isFalse (by intro hc; cases hc)
  | .error _, .ok _ => isFalse (by intro hc; cases hc)

/-! ## Concrete example inputs used by witnesses and counterexamples -/

/-- A single isolated triangle with non-degenerate geometry. -/
def triMeshW : BMeshSrc :=
  ⟨[⟨0, 0, 0⟩, ⟨1, 0, 0⟩, ⟨0, 1, 0⟩], [(0, 1), (1, 2), (2, 0)], [[0, 1, 2]],
   [⟨0, 0, 1⟩], [0], none⟩

/-- Two triangles sharing the manifold edge `(0, 1)`. -/
def twoTriW : BMeshSrc :=
  ⟨[⟨0, 0, 0⟩, ⟨1, 0, 0⟩, ⟨0, 1, 0⟩, ⟨0, 0, 1⟩],
   [(0, 1), (1, 2), (2, 0), (1, 3), (3, 0)],
   [[0, 1, 2], [1, 0, 3]], [⟨0, 0, 1⟩, ⟨0, 1, 0⟩], [0, 0], none⟩

/-- Three triangles sharing the non-manifold edge `(0, 1)` (3 linked faces). -/
def threeFanW : BMeshSrc :=
  ⟨[⟨0, 0, 0⟩, ⟨1, 0, 0⟩, ⟨0, 1, 0⟩, ⟨0, 0, 1⟩, ⟨1, 1, 1⟩],
   [(0, 1), (1, 2), (2, 0), (1, 3), (3, 0), (1, 4), (4, 0)],
   [[0, 1, 2], [0, 1, 3], [0, 1, 4]],
   [⟨0, 0, 1⟩, ⟨0, 1, 0⟩, ⟨1, 0, 0⟩], [0, 0, 0], none⟩

/-- A triangle face whose three (distinct) vertices sit at the same position:
zero area, zero pairwise distance. -/
def degTriW : BMeshSrc :=
  ⟨[⟨0, 0, 0⟩, ⟨0, 0, 0⟩, ⟨0, 0, 0⟩], [(0, 1), (1, 2), (2, 0)], [[0, 1, 2]],
   [⟨0, 0, 0⟩], [0], none⟩

/-- A unit square quad. -/
def sqMeshW : BMeshSrc :=
  ⟨[⟨0, 0, 0⟩, ⟨1, 0, 0⟩, ⟨1, 1, 0⟩, ⟨0, 1, 0⟩],
   [(0, 1), (1, 2), (2, 3), (3, 0)], [[0, 1, 2, 3]], [⟨0, 0, 1⟩], [0], none⟩

/-- A mesh with vertices and an edge but zero faces. -/
def noFacesW : BMeshSrc := ⟨[⟨0, 0, 0⟩, ⟨1, 0, 0⟩], [(0, 1)], [], [], [], none⟩

/-- An edges section declaring 10 edges over a 10-vertex mesh whose pair 3
references vertex 999 (all other pairs valid and distinct). -/
def edgesC7W : EdgesSection :=
  ⟨10, [0, 1, 1, 2, 2, 3, 999, 4, 4, 5, 5, 6, 6, 7, 7, 8, 8, 9, 9, 0],
   none, none, none⟩

/-- A well-sized vertices section for the full-decode C7 scenario: 10 vertices
whose position components are all 0 (30 f32 components). -/
def vertsTenW : VerticesSection := ⟨10, List.replicate 30 0, none⟩

/-- A full decode input embedding `edgesC7W` over `vertsTenW`, with zero loops
and zero faces, so the entire `decode_gltf_extension_to_bmesh` pipeline runs
on the corrupt edge buffer. -/
def extC7FullW : ExtensionData :=
  ⟨some vertsTenW, some edgesC7W, some ⟨0, [], none⟩,
   some ⟨0, [], [0], none, none, none, none⟩⟩

/-- A vertices section declaring `count = 4` whose positions buffer holds only
3 × 3 f32 components (36 of the 48 declared bytes). -/
def vertsC3W : VerticesSection := ⟨4, [0, 0, 0, 1, 0, 0, 0, 1, 0], none⟩

/-- A full decode input embedding `vertsC3W` (all four sections present so the
decode reaches vertex reconstruction). -/
def extC3W : ExtensionData :=
  ⟨some vertsC3W, some ⟨0, [], none, none, none⟩, some ⟨0, [], none⟩,
   some ⟨0, [], [], none, none, none, none⟩⟩

/-- A host environment in which only `mesh.update()` raises. -/
def envUpdateFailsW : HostEnv :=
  ⟨false, fun s => match s with | .updateMesh => true | _ => false⟩

/-- A host environment in which no host call raises. -/
def envOkW : HostEnv := ⟨false, fun _ => false⟩

/-- A one-vertex reconstructed snapshot. -/
def bmSnapW : BMeshD := ⟨[⟨0, 0, 0⟩], [], [], none⟩

/-- An empty mesh sink in its prior state. -/
def sinkPriorW : SinkMesh := ⟨none, false, false, false, false⟩

/-! ## Helper lemmas -/

theorem vecsToFlat_length (vs : List Vec3) : (vecsToFlat vs).length = 3 * vs.length := by
  induction vs with
  | nil => simp [vecsToFlat]
  | cons v vs ih => simp [vecsToFlat, ih]; ring

theorem pairsToFlat_length {α : Type} (ps : List (α × α)) :
    (pairsToFlat ps).length = 2 * ps.length := by
  induction ps with
  | nil => simp [pairsToFlat]
  | cons p ps ih => simp [pairsToFlat, ih]; ring

theorem flatToVecs_vecsToFlat (vs : List Vec3) :
    flatToVecs vs.length (vecsToFlat vs) = vs := by
  induction vs with
  | nil => rfl
  | cons v vs ih => simp [vecsToFlat, flatToVecs, ih]

theorem facesOffsetsAux_length (fs : List (List Nat)) (off : Nat) :
    (facesOffsetsAux fs off).length = fs.length + 1 := by
  induction fs generalizing off with
  | nil => simp [facesOffsetsAux]
  | cons f fs ih => simp [facesOffsetsAux, ih]

theorem facesOffsetsAux_getD (fs : List (List Nat)) (off i : Nat) (h : i ≤ fs.length) :
    (facesOffsetsAux fs off).getD i 0 = off + ((fs.take i).map List.length).sum := by
  induction fs generalizing off i with
  | nil =>
    have hi : i = 0 := by simpa using h
    subst hi
    simp [facesOffsetsAux]
  | cons f fs ih =>
    cases i with
    | zero => simp [facesOffsetsAux]
    | succ j =>
      have hj : j ≤ fs.length := by simpa using h
      simp only [facesOffsetsAux, List.getD_cons_succ, List.take_succ_cons, List.map_cons,
        List.sum_cons]
      rw [ih _ _ hj]
      ring

theorem flatten_drop_take (fs : List (List Nat)) (i : Nat) (h : i < fs.length) :
    ((fs.flatten).drop (((fs.take i).map List.length).sum)).take (fs.getD i []).length
      = fs.getD i [] := by
  induction fs generalizing i with
  | nil => simp at h
  | cons f fs ih =>
    cases i with
    | zero => simp
    | succ j =>
      have hj : j < fs.length := by simpa using h
      have := ih j hj
      simpa [List.drop_append] using this

theorem getD_map_lt {α β : Type} (f : α → β) (l : List α) (e : Nat) (he : e < l.length)
    (d : α) (d2 : β) : (l.map f).getD e d2 = f (l.getD e d) := by
  rw [List.getD_eq_getElem?_getD, List.getD_eq_getElem?_getD, List.getElem?_map,
    List.getElem?_eq_getElem he]
  simp

theorem take_sum_le_aux (l : List Nat) (i : Nat) : (l.take i).sum ≤ (l.take (i + 1)).sum := by
  rw [List.take_succ]
  simp

theorem take_sum_le (fs : List (List Nat)) (i : Nat) :
    ((fs.take i).map List.length).sum ≤ ((fs.take (i + 1)).map List.length).sum := by
  rw [List.map_take, List.map_take]
  exact take_sum_le_aux (fs.map List.length) i

theorem flatten_length_sum (fs : List (List Nat)) :
    fs.flatten.length = (fs.map List.length).sum := by
  simp

/-- **C6** — CSR offset invariant: whenever the encoder emits a faces
section, its `offsets` array has `face_count + 1` entries, is monotone
(`offsets[i] ≤ offsets[i+1]` for every `i < face_count`), and its final entry
equals the number of u32 entries of the flat `faces.vertices` array. -/
theorem C6_csr_offset_invariant (m : BMeshSrc) (s : FacesSection)
    (hs : encodeFacesToBuffers m = some s) :
    s.count = m.faces.length ∧
    s.offsetsData.length = s.count + 1 ∧
    (∀ i, i < s.count → s.offsetsData.getD i 0 ≤ s.offsetsData.getD (i + 1) 0) ∧
    s.offsetsData.getD s.count 0 = s.verticesData.length := by
  unfold encodeFacesToBuffers at hs
  by_cases hemp : m.faces.isEmpty
  · simp [hemp] at hs
  · simp only [hemp, Bool.false_eq_true, if_false, Option.some.injEq] at hs
    subst hs
    refine ⟨rfl, ?_, ?_, ?_⟩
    · simpa using facesOffsetsAux_length m.faces 0
    · intro i hi
      have hi2 : i < m.faces.length := hi
      rw [facesOffsetsAux_getD m.faces 0 i (by omega),
        facesOffsetsAux_getD m.faces 0 (i + 1) (by omega)]
      have := take_sum_le m.faces i
      omega
    · show (facesOffsetsAux m.faces 0).getD m.faces.length 0 = m.faces.flatten.length
      rw [facesOffsetsAux_getD m.faces 0 m.faces.length (le_refl _)]
      rw [List.take_of_length_le (le_refl _)]
      simpa using (flatten_length_sum m.faces).symm

/-- Witness for C6 on the single-triangle mesh. -/
theorem C6_csr_offset_invariant_witness :
    ∃ s, encodeFacesToBuffers triMeshW = some s ∧
      s.count = 1 ∧ s.offsetsData.length = 2 ∧
      s.offsetsData.getD 0 0 ≤ s.offsetsData.getD 1 0 ∧
      s.offsetsData.getD 1 0 = s.verticesData.length := by
  refine ⟨⟨1, [0, 1, 2], [0, 3], some [0, 1, 2], some [0, 1, 2], some [0, 0, 1], none⟩,
    by decide, ?_⟩
  have h := C6_csr_offset_invariant triMeshW
    ⟨1, [0, 1, 2], [0, 3], some [0, 1, 2], some [0, 1, 2], some [0, 0, 1], none⟩ (by decide)
  exact ⟨h.1, by simpa [h.1] using h.2.1, h.2.2.1 0 (by decide), by simpa [h.1] using h.2.2.2⟩

/-- **C5** — Manifold classification: with manifold preservation on, the
manifold byte of edge `e` is 1 iff exactly 2 faces of the snapshot reference
that edge and 0 iff not; with preservation off it is 255 for every edge. -/
theorem C5_manifold_classification (m : BMeshSrc) (e : Nat) (he : e < m.edges.length) :
    ∃ s t, encodeEdgesToBuffers true m = some s ∧ s.manifoldData = some t ∧
      (t.getD e 0 = 1 ↔ (linkFaceIdxs m.faces (m.edges.getD e (0, 0))).length = 2) ∧
      (t.getD e 0 = 0 ↔ (linkFaceIdxs m.faces (m.edges.getD e (0, 0))).length ≠ 2) ∧
      ∃ s2 t2, encodeEdgesToBuffers false m = some s2 ∧ s2.manifoldData = some t2 ∧
        t2.getD e 0 = 255 := by
  have hne : m.edges.isEmpty = false := by
    cases hm : m.edges with
    | nil => rw [hm] at he; simp at he
    | cons a l => simp [hm]
  have hmd : ∀ pv : Bool,
      ((m.edges.map fun p => manifoldByte (calculateEdgeManifoldStatus pv m.faces p)).isEmpty)
        = false := by
    intro pv
    cases hm : m.edges with
    | nil => rw [hm] at he; simp at he
    | cons a l => simp [hm]
  have henc : ∀ pv : Bool, ∃ s, encodeEdgesToBuffers pv m = some s ∧
      s.manifoldData
        = some (m.edges.map fun p => manifoldByte (calculateEdgeManifoldStatus pv m.faces p)) := by
    intro pv
    refine ⟨{ count := m.edges.length
              verticesData := pairsToFlat m.edges
              facesData := if ((m.edges.map fun p => linkFaceIdxs m.faces p).flatten).isEmpty = true
                then none else some ((m.edges.map fun p => linkFaceIdxs m.faces p).flatten)
              manifoldData :=
                some (m.edges.map fun p => manifoldByte (calculateEdgeManifoldStatus pv m.faces p))
              smoothData := none }, ?_, rfl⟩
    simp [encodeEdgesToBuffers, hne, hmd pv]
  obtain ⟨s1, hs1, hm1⟩ := henc true
  obtain ⟨s2, hs2, hm2⟩ := henc false
  have hb : ∀ pv : Bool,
      (m.edges.map fun p => manifoldByte (calculateEdgeManifoldStatus pv m.faces p)).getD e 0
        = manifoldByte (calculateEdgeManifoldStatus pv m.faces (m.edges.getD e (0, 0))) :=
    fun pv => getD_map_lt _ _ e he (0, 0) 0
  refine ⟨s1, _, hs1, hm1, ?_, ?_, s2, _, hs2, hm2, ?_⟩
  · rw [hb true]
    by_cases h2 : (linkFaceIdxs m.faces (m.edges.getD e (0, 0))).length = 2
    · unfold calculateEdgeManifoldStatus
      rw [h2]
      simp [manifoldByte]
    · have hbe : ((linkFaceIdxs m.faces (m.edges.getD e (0, 0))).length == 2) = false := by
        rw [beq_eq_false_iff_ne]
        exact h2
      unfold calculateEdgeManifoldStatus
      rw [hbe]
      simp only [manifoldByte, Bool.not_true, Bool.false_eq_true, if_false]
      constructor
      · intro hcon
        exact absurd hcon (by decide)
      · intro hcon
        exact absurd hcon h2
  · rw [hb true]
    by_cases h2 : (linkFaceIdxs m.faces (m.edges.getD e (0, 0))).length = 2
    · unfold calculateEdgeManifoldStatus
      rw [h2]
      simp [manifoldByte]
    · have hbe : ((linkFaceIdxs m.faces (m.edges.getD e (0, 0))).length == 2) = false := by
        rw [beq_eq_false_iff_ne]
        exact h2
      unfold calculateEdgeManifoldStatus
      rw [hbe]
      simp only [manifoldByte, Bool.not_true, Bool.false_eq_true, if_false]
      exact ⟨fun _ => h2, fun _ => trivial⟩
  · rw [hb false]
    rfl

/-- Witness for C5: on the single isolated triangle every edge has exactly
one linked face, so all three manifold bytes are 0 (non-manifold). -/
theorem C5_manifold_classification_witness :
    (0 : Nat) < triMeshW.edges.length ∧
    ∃ s t, encodeEdgesToBuffers true triMeshW = some s ∧ s.manifoldData = some t ∧
      t.getD 0 0 = 0 := by
  refine ⟨by decide, ?_⟩
  obtain ⟨s, t, hs, ht, _, h0, _⟩ := C5_manifold_classification triMeshW 0 (by decide)
  exact ⟨s, t, hs, ht, h0.mpr (by decide)⟩

/-- **C9** — Idempotent empty input: encoding a mesh with zero faces yields
the empty extension dict (all four sections absent, hence every section count
reads as 0), and decoding that output returns the absent result (`none`),
not an error. -/
theorem C9_idempotent_empty_input (m : BMeshSrc) (preserve : Bool) (h : m.faces = []) :
    encodeBmeshToGltfExtension preserve m = ⟨none, none, none, none⟩ ∧
    extVerticesCount (encodeBmeshToGltfExtension preserve m) = 0 ∧
    extEdgesCount (encodeBmeshToGltfExtension preserve m) = 0 ∧
    extLoopsCount (encodeBmeshToGltfExtension preserve m) = 0 ∧
    extFacesCount (encodeBmeshToGltfExtension preserve m) = 0 ∧
    decodeGltfExtensionToBmesh (encodeBmeshToGltfExtension preserve m) = none := by
  have henc : encodeBmeshToGltfExtension preserve m = ⟨none, none, none, none⟩ := by
    unfold encodeBmeshToGltfExtension
    simp [h]
  refine ⟨henc, ?_, ?_, ?_, ?_, ?_⟩ <;> rw [henc] <;> rfl

/-- Witness for C9 on a mesh with two vertices, one edge and zero faces. -/
theorem C9_idempotent_empty_input_witness :
    noFacesW.faces = [] ∧
    encodeBmeshToGltfExtension true noFacesW = ⟨none, none, none, none⟩ ∧
    decodeGltfExtensionToBmesh (encodeBmeshToGltfExtension true noFacesW) = none := by
  have h := C9_idempotent_empty_input noFacesW true rfl
  exact ⟨rfl, h.1, h.2.2.2.2.2⟩

/-- **C3** — Malformed positions buffer: for every decode input with all four
sections present whose vertices section declares a positive `count` but whose
positions buffer holds fewer than `count × 3` f32 components, vertex
reconstruction fails with `malformedBuffer` before any vertex is created (an
error, never a partial vertex list), and the whole decode surfaces the
failure as `none` — no partial vertex array reaches the caller. -/
theorem C3_malformed_positions_buffer (v : VerticesSection) (e : EdgesSection)
    (l : LoopsSection) (f : FacesSection) (hc : 0 < v.count)
    (hshort : v.positionsData.length < v.count * 3) :
    reconstructVerticesFromDirectData v = .error .malformedBuffer ∧
    decodeGltfExtensionToBmesh ⟨some v, some e, some l, some f⟩ = none := by
  have hup : unpackF v.positionsData (v.count * 3) = .error .malformedBuffer := by
    unfold unpackF
    rw [if_neg (by omega)]
  have hrv : reconstructVerticesFromDirectData v = .error .malformedBuffer := by
    unfold reconstructVerticesFromDirectData
    rw [if_neg (by omega), hup]
    rfl
  refine ⟨hrv, ?_⟩
  simp [decodeGltfExtensionToBmesh, decodeEncodedDataToBmesh, extIsEmpty,
    hasExplicitTopologyData, hrv]

/-- Witness for C3: `count = 4` with only 9 f32 components (36 of 48 bytes). -/
theorem C3_malformed_positions_buffer_witness :
    0 < vertsC3W.count ∧ vertsC3W.positionsData.length < vertsC3W.count * 3 ∧
    reconstructVerticesFromDirectData vertsC3W = .error .malformedBuffer ∧
    decodeGltfExtensionToBmesh extC3W = none := by
  have h := C3_malformed_positions_buffer vertsC3W ⟨0, [], none, none, none⟩ ⟨0, [], none⟩
    ⟨0, [], [], none, none, none, none⟩ (by decide) (by decide)
  exact ⟨by decide, by decide, h.1, h.2⟩

/-- **C10** — Decode ignores the loop topology buffer: two decode inputs that
agree everywhere except in the byte contents of the loops section's
`topology` attribute decode to identical results; of the loops section only
the `count` and the UV attribute influence the output. -/
theorem C10_decode_ignores_loop_topology (v : Option VerticesSection)
    (e : Option EdgesSection) (f : Option FacesSection) (c : Nat)
    (t1 t2 : List Nat) (u : Option (List ℚ)) :
    decodeGltfExtensionToBmesh ⟨v, e, some ⟨c, t1, u⟩, f⟩
      = decodeGltfExtensionToBmesh ⟨v, e, some ⟨c, t2, u⟩, f⟩ := by
  cases v with
  | none => rfl
  | some vd =>
    cases e with
    | none => rfl
    | some ed =>
      cases f with
      | none => rfl
      | some fd => rfl

/-- The two length tests and the area test encoded in
`_validate_triangle_geometry`, read back from a successful validation. -/
theorem validateTriangleGeometry_spec (v0 v1 v2 : Vec3)
    (h : validateTriangleGeometry v0 v1 v2 = true) :
    0 < normSq (vsub v0 v1) ∧ 0 < normSq (vsub v1 v2) ∧ 0 < normSq (vsub v2 v0) ∧
    4 / 10 ^ 16 < normSq (cross (vsub v1 v0) (vsub v2 v0)) := by
  unfold validateTriangleGeometry at h
  by_cases hcoin : normSq (vsub v0 v1) < 1 / 10 ^ 16 ∨ normSq (vsub v1 v2) < 1 / 10 ^ 16 ∨
      normSq (vsub v2 v0) < 1 / 10 ^ 16
  · rw [if_pos hcoin] at h
    cases h
  · rw [if_neg hcoin] at h
    push_neg at hcoin
    obtain ⟨h1, h2, h3⟩ := hcoin
    have hpos : (0 : ℚ) < 1 / 10 ^ 16 := by norm_num
    exact ⟨lt_of_lt_of_le hpos h1, lt_of_lt_of_le hpos h2, lt_of_lt_of_le hpos h3,
      of_decide_eq_true h⟩

/-- **C2 counterexample** — the emitted-triangle list of
`encode_triangle_fan_implicit` on a fully degenerate triangle face (three
distinct vertices at one position): the triangle is emitted directly by the
3-corner branch with no geometric validation, its pairwise vertex distances
are 0 and its area is 0, refuting the claim that every emitted triangle has
pairwise distance > 0 and area > 1e-8. -/
theorem C2_fan_nondegeneracy_counterexample :
    encodeTriangleFanImplicit degTriW (fun _ => true) (fun _ => 0) = [(0, (0, 1, 2))] ∧
    normSq (vsub (posOf degTriW 0) (posOf degTriW 1)) = 0 ∧
    normSq (cross (vsub (posOf degTriW 1) (posOf degTriW 0))
      (vsub (posOf degTriW 2) (posOf degTriW 0))) = 0 ∧
    validateTriangleGeometry (posOf degTriW 0) (posOf degTriW 1) (posOf degTriW 2)
      = false := by
  refine ⟨by decide, ?_, ?_, ?_⟩
  · norm_num [normSq, vsub, posOf, degTriW]
  · norm_num [normSq, vsub, cross, posOf, degTriW]
  · norm_num [validateTriangleGeometry, normSq, vsub, cross, posOf, degTriW]

/-- A nonempty robust fan of an n-gon face (4 or more corners) is emitted
verbatim by `encode_triangle_fan_implicit`: each of its triangles is a member
of the flattened output list. -/
theorem mem_encodeTriangleFanImplicit (m : BMeshSrc) (fval : Nat → Bool)
    (ansel : Nat → Nat) (fi : Nat) (hfi : fi < m.faces.length)
    (h4 : 4 ≤ (m.faces.getD fi []).length) (t : Nat × (Nat × Nat × Nat))
    (ht : t ∈ createRobustTriangleFan m (fval fi) (ansel fi) (m.faces.getD fi [])
      (m.faceMats.getD fi 0)) :
    t ∈ encodeTriangleFanImplicit m fval ansel := by
  have hem : (createRobustTriangleFan m (fval fi) (ansel fi) (m.faces.getD fi [])
      (m.faceMats.getD fi 0)).isEmpty = false := by
    cases hE : createRobustTriangleFan m (fval fi) (ansel fi) (m.faces.getD fi [])
        (m.faceMats.getD fi 0) with
    | nil => rw [hE] at ht; cases ht
    | cons a l => rfl
  unfold encodeTriangleFanImplicit
  rw [List.mem_flatten]
  refine ⟨createRobustTriangleFan m (fval fi) (ansel fi) (m.faces.getD fi [])
    (m.faceMats.getD fi 0), ?_, ht⟩
  rw [List.mem_map]
  refine ⟨fi, List.mem_range.mpr hfi, ?_⟩
  show (if (m.faces.getD fi []).length ≤ 2 then [] else
    if (m.faces.getD fi []).length = 3 then
      [(m.faceMats.getD fi 0, ((m.faces.getD fi []).getD 0 0,
        (m.faces.getD fi []).getD 1 0, (m.faces.getD fi []).getD 2 0))]
    else
      if (createRobustTriangleFan m (fval fi) (ansel fi) (m.faces.getD fi [])
          (m.faceMats.getD fi 0)).isEmpty = true then
        createSimpleTriangleFan (m.faces.getD fi []) (m.faceMats.getD fi 0)
      else
        createRobustTriangleFan m (fval fi) (ansel fi) (m.faces.getD fi [])
          (m.faceMats.getD fi 0)) = _
  rw [if_neg (by omega), if_neg (by omega), hem]
  simp

/-- **C2 amended** — every triangle emitted through the robust n-gon fan
path (`_create_robust_triangle_fan`) passes the geometric validation: its
three vertex positions are pairwise non-coincident (positive squared
distance) and its area exceeds 1e-8 (squared cross-product norm above
4e-16); moreover any such triangle of an n-gon face (4 or more corners,
nonempty robust fan) appears verbatim in the output of
`encode_triangle_fan_implicit`.  3-corner faces and the simple fallback fan
bypass this validation, so degenerate triangles can still appear in the
overall output (see the counterexample). -/
theorem C2_fan_nondegeneracy_amended (m : BMeshSrc) (faceValid : Bool)
    (anchorIdx : Nat) (fvs : List Nat) (mi : Nat) (t : Nat × (Nat × Nat × Nat))
    (ht : t ∈ createRobustTriangleFan m faceValid anchorIdx fvs mi) :
    0 < normSq (vsub (posOf m t.2.1) (posOf m t.2.2.1)) ∧
    0 < normSq (vsub (posOf m t.2.2.1) (posOf m t.2.2.2)) ∧
    0 < normSq (vsub (posOf m t.2.2.2) (posOf m t.2.1)) ∧
    4 / 10 ^ 16 < normSq (cross (vsub (posOf m t.2.2.1) (posOf m t.2.1))
      (vsub (posOf m t.2.2.2) (posOf m t.2.1))) ∧
    (∀ fval ansel fi, fi < m.faces.length →
      m.faces.getD fi [] = fvs → m.faceMats.getD fi 0 = mi →
      fval fi = faceValid → ansel fi = anchorIdx → 4 ≤ fvs.length →
      t ∈ encodeTriangleFanImplicit m fval ansel) := by
  have hmain : 0 < normSq (vsub (posOf m t.2.1) (posOf m t.2.2.1)) ∧
      0 < normSq (vsub (posOf m t.2.2.1) (posOf m t.2.2.2)) ∧
      0 < normSq (vsub (posOf m t.2.2.2) (posOf m t.2.1)) ∧
      4 / 10 ^ 16 < normSq (cross (vsub (posOf m t.2.2.1) (posOf m t.2.1))
        (vsub (posOf m t.2.2.2) (posOf m t.2.1))) := by
    unfold createRobustTriangleFan at ht
    split_ifs at ht with hv
    · simp at ht
    · rw [List.mem_filterMap] at ht
      obtain ⟨i, _, hsome⟩ := ht
      by_cases hval : validateTriangleGeometry (posOf m (fanCandidate fvs anchorIdx i).1)
          (posOf m (fanCandidate fvs anchorIdx i).2.1)
          (posOf m (fanCandidate fvs anchorIdx i).2.2) = true
      · rw [if_pos hval] at hsome
        have hteq : t = (mi, fanCandidate fvs anchorIdx i) := by
          cases hsome
          rfl
        subst hteq
        exact validateTriangleGeometry_spec _ _ _ hval
      · rw [if_neg hval] at hsome
        cases hsome
  refine ⟨hmain.1, hmain.2.1, hmain.2.2.1, hmain.2.2.2, ?_⟩
  intro fval ansel fi hfi hfvs hmi hfv han h4
  exact mem_encodeTriangleFanImplicit m fval ansel fi hfi
    (by rw [hfvs]; exact h4) t (by rw [hfvs, hmi, hfv, han]; exact ht)

/-- Witness for the amended C2 on the unit square fanned from corner 0: the
first emitted robust-fan triangle is validated and appears in the output of
`encode_triangle_fan_implicit`. -/
theorem C2_fan_nondegeneracy_amended_witness :
    (0, ((0 : Nat), (1 : Nat), (2 : Nat))) ∈
      createRobustTriangleFan sqMeshW true 0 [0, 1, 2, 3] 0 ∧
    0 < normSq (vsub (posOf sqMeshW 0) (posOf sqMeshW 1)) ∧
    4 / 10 ^ 16 < normSq (cross (vsub (posOf sqMeshW 1) (posOf sqMeshW 0))
      (vsub (posOf sqMeshW 2) (posOf sqMeshW 0))) ∧
    (0, ((0 : Nat), (1 : Nat), (2 : Nat))) ∈
      encodeTriangleFanImplicit sqMeshW (fun _ => true) (fun _ => 0) := by
  have hfan : createRobustTriangleFan sqMeshW true 0 [0, 1, 2, 3] 0
      = [(0, (0, 1, 2)), (0, (0, 2, 3))] := by
    norm_num [createRobustTriangleFan, fanCandidate, validateTriangleGeometry, normSq,
      vsub, cross, posOf, sqMeshW, List.range', List.filterMap]
  have hmem : (0, ((0 : Nat), (1 : Nat), (2 : Nat))) ∈
      createRobustTriangleFan sqMeshW true 0 [0, 1, 2, 3] 0 := by
    rw [hfan]
    simp
  have h := C2_fan_nondegeneracy_amended sqMeshW true 0 [0, 1, 2, 3] 0 _ hmem
  exact ⟨hmem, h.1, h.2.2.2.1,
    h.2.2.2.2 (fun _ => true) (fun _ => 0) 0 (by decide) rfl rfl rfl rfl (by decide)⟩

theorem finalizeSink_content (env : HostEnv) (m : SinkMesh) :
    (finalizeSink env m).2.content = m.content := by
  unfold finalizeSink
  split_ifs <;> rfl

theorem finalizeSink_ok (env : HostEnv) (m : SinkMesh)
    (h : (finalizeSink env m).1 = true) :
    (finalizeSink env m).2.content = m.content ∧ (finalizeSink env m).2.updated = true ∧
    (finalizeSink env m).2.triangulated = true ∧
    (finalizeSink env m).2.normalsComputed = true := by
  unfold finalizeSink at h ⊢
  split_ifs at h ⊢ <;> first | exact ⟨rfl, rfl, rfl, rfl⟩ | cases h

/-- **C4 counterexample** — the claim "if apply fails then the mesh sink is
left in its prior state" is false: with a host environment in which only the
`mesh.update()` call after `bm.to_mesh(mesh)` raises, apply reports failure
(`false`) yet the sink's content has already been replaced by the snapshot,
so the sink is not in its prior state. -/
theorem C4_apply_atomicity_counterexample :
    (applyBmeshToBlenderMesh envUpdateFailsW bmSnapW sinkPriorW).1 = false ∧
    (applyBmeshToBlenderMesh envUpdateFailsW bmSnapW sinkPriorW).2 ≠ sinkPriorW ∧
    (applyBmeshToBlenderMesh envUpdateFailsW bmSnapW sinkPriorW).2.content
      = some bmSnapW := by
  exact ⟨by decide, by decide, by decide⟩

/-- **C4 amended** — apply builds the snapshot fully before touching the
sink and replaces the sink's content in the single `to_mesh` host call: when
apply succeeds the sink holds the new snapshot with all derived state
recomputed; when the `to_mesh` call itself fails the sink is returned in
exactly its prior state; but once `to_mesh` has succeeded the sink's content
is the new snapshot even if a later host call fails — a failed apply
therefore does not imply the sink is in its prior state. -/
theorem C4_apply_atomicity_amended (env : HostEnv) (bm : BMeshD) (mesh : SinkMesh) :
    ((applyBmeshToBlenderMesh env bm mesh).1 = true →
      ((applyBmeshToBlenderMesh env bm mesh).2.content = some bm ∧
       (applyBmeshToBlenderMesh env bm mesh).2.updated = true ∧
       (applyBmeshToBlenderMesh env bm mesh).2.triangulated = true ∧
       (applyBmeshToBlenderMesh env bm mesh).2.normalsComputed = true)) ∧
    (env.fails .toMesh = true → applyBmeshToBlenderMesh env bm mesh = (false, mesh)) ∧
    (env.fails .toMesh = false →
      (applyBmeshToBlenderMesh env bm mesh).2.content = some bm) := by
  by_cases ht : env.fails .toMesh
  · refine ⟨?_, ?_, ?_⟩
    · intro hok
      unfold applyBmeshToBlenderMesh at hok
      rw [if_pos ht] at hok
      cases hok
    · intro _
      unfold applyBmeshToBlenderMesh
      rw [if_pos ht]
    · intro hf
      rw [ht] at hf
      cases hf
  · simp only [applyBmeshToBlenderMesh]
    rw [if_neg ht]
    split
    · refine ⟨fun hok => ?_, fun hcon => absurd hcon ht, fun _ => rfl⟩
      cases hok
    · split
      · split
        · refine ⟨fun hok => ?_, fun hcon => absurd hcon ht, fun _ => rfl⟩
          cases hok
        · refine ⟨?_, fun hcon => absurd hcon ht, ?_⟩
          · intro hok
            have h2 := finalizeSink_ok env _ hok
            simpa using h2
          · intro _
            simpa using finalizeSink_content env
              { mesh with content := some bm, autoSmooth := true }
      · refine ⟨?_, fun hcon => absurd hcon ht, ?_⟩
        · intro hok
          have h2 := finalizeSink_ok env _ hok
          simpa using h2
        · intro _
          simpa using finalizeSink_content env { mesh with content := some bm }

/-- Witness for the amended C4: in a host environment where no call raises,
apply succeeds and the sink ends in the fully recomputed new state; and on
`envUpdateFailsW` the non-`toMesh` conjunct still yields the new content. -/
theorem C4_apply_atomicity_amended_witness :
    ((applyBmeshToBlenderMesh envOkW bmSnapW sinkPriorW).1 = true →
      (applyBmeshToBlenderMesh envOkW bmSnapW sinkPriorW).2.content = some bmSnapW ∧
      (applyBmeshToBlenderMesh envOkW bmSnapW sinkPriorW).2.updated = true ∧
      (applyBmeshToBlenderMesh envOkW bmSnapW sinkPriorW).2.triangulated = true ∧
      (applyBmeshToBlenderMesh envOkW bmSnapW sinkPriorW).2.normalsComputed = true) ∧
    (envOkW.fails .toMesh = false →
      (applyBmeshToBlenderMesh envOkW bmSnapW sinkPriorW).2.content = some bmSnapW) ∧
    (applyBmeshToBlenderMesh envOkW bmSnapW sinkPriorW).1 = true := by
  have h := C4_apply_atomicity_amended envOkW bmSnapW sinkPriorW
  exact ⟨h.1, h.2.2, by decide⟩

/-! ### C7 — the edge reconstruction loop -/

theorem pairEqB_refl (p : Nat × Nat) : pairEqB p p = true := by
  simp [pairEqB]

/-- Invariant-carrying description of the `for i in range(edge_count)` loop of
`_reconstruct_edges_from_direct_data` in the corrupt-single-edge scenario:
one designated index `k` has an out-of-range endpoint, every other pair is
in-range, non-degenerate and pairwise distinct.  Processing the whole range
yields one created edge per valid index, no mapping for `k`, and zero
reported skip warnings. -/
theorem reconEdgeStep_loop (nverts : Nat) (pairs : List Nat) (cnt k : Nat)
    (hk : k < cnt)
    (hbad : ¬(pairs.getD (2 * k) 0 < nverts ∧ pairs.getD (2 * k + 1) 0 < nverts))
    (hgood : ∀ i, i < cnt → i ≠ k → pairs.getD (2 * i) 0 < nverts ∧
      pairs.getD (2 * i + 1) 0 < nverts ∧ pairs.getD (2 * i) 0 ≠ pairs.getD (2 * i + 1) 0)
    (hdist : ∀ i, i < cnt → ∀ j, j < cnt → i ≠ j →
      pairEqB (pairs.getD (2 * i) 0, pairs.getD (2 * i + 1) 0)
        (pairs.getD (2 * j) 0, pairs.getD (2 * j + 1) 0) = false) :
    ∀ n j st, j + n = cnt →
      st.skipWarnings = 0 →
      st.emap.length = j →
      (k < j → st.emap.getD k none = none) →
      st.edges.length + (if k < j then 1 else 0) = j →
      (∀ idx, idx < st.edges.length → ∃ i, i < j ∧ i ≠ k ∧
        (st.edges.getD idx ⟨0, 0, true⟩).a = pairs.getD (2 * i) 0 ∧
        (st.edges.getD idx ⟨0, 0, true⟩).b = pairs.getD (2 * i + 1) 0) →
      ((List.range' j n).foldl (reconEdgeStep nverts pairs none) st).skipWarnings = 0 ∧
      ((List.range' j n).foldl (reconEdgeStep nverts pairs none) st).emap.length = cnt ∧
      (((List.range' j n).foldl (reconEdgeStep nverts pairs none) st).emap.getD k none
        = none) ∧
      ((List.range' j n).foldl (reconEdgeStep nverts pairs none) st).edges.length + 1
        = cnt := by
  intro n
  induction n with
  | zero =>
    intro j st hjn hw hml hmk hel _
    rw [show List.range' j 0 = ([] : List Nat) from rfl, List.foldl_nil]
    have hj : j = cnt := by omega
    subst hj
    refine ⟨hw, hml, hmk hk, ?_⟩
    rw [if_pos hk] at hel
    omega
  | succ n ih =>
    intro j st hjn hw hml hmk hel hent
    have hjlt : j < cnt := by omega
    rw [List.range'_succ j n 1, List.foldl_cons]
    by_cases hjk : j = k
    · subst hjk
      have hstep : reconEdgeStep nverts pairs none st j
          = { st with emap := st.emap ++ [none] } := by
        unfold reconEdgeStep
        rw [if_neg hbad]
      rw [hstep]
      refine ih (j + 1) _ (by omega) hw (by simp [hml]) ?_ ?_ ?_
      · intro _
        rw [← hml, List.getD_append_right _ _ _ _ (le_refl _)]
        simp
      · rw [if_neg (by omega)] at hel
        rw [if_pos (by omega)]
        simpa using hel
      · intro idx hidx
        obtain ⟨i, hi1, hi2, hi3, hi4⟩ := hent idx (by simpa using hidx)
        exact ⟨i, by omega, hi2, hi3, hi4⟩
    · obtain ⟨hga, hgb, hgne⟩ := hgood j hjlt hjk
      have hnofind : findExistingEdge st.edges (pairs.getD (2 * j) 0)
          (pairs.getD (2 * j + 1) 0) = none := by
        cases hfe : findExistingEdge st.edges (pairs.getD (2 * j) 0)
            (pairs.getD (2 * j + 1) 0) with
        | none => rfl
        | some idx =>
          exfalso
          unfold findExistingEdge at hfe
          have hpred := List.find?_some hfe
          have hidxlt : idx < st.edges.length := by
            have hm := List.mem_of_find?_eq_some hfe
            simpa using hm
          obtain ⟨i, hi1, hi2, hi3, hi4⟩ := hent idx hidxlt
          have hcontra := hdist i (by omega) j hjlt (by omega)
          unfold edgeSetEqB at hpred
          unfold pairEqB at hcontra
          rw [hi3, hi4] at hpred
          simp only at hpred hcontra
          rw [hpred] at hcontra
          cases hcontra
      have hstep : reconEdgeStep nverts pairs none st j
          = { st with
              edges := st.edges ++ [⟨pairs.getD (2 * j) 0, pairs.getD (2 * j + 1) 0, true⟩]
              emap := st.emap ++ [some st.edges.length] } := by
        unfold reconEdgeStep
        rw [if_pos ⟨hga, hgb⟩, if_pos ⟨hgne, hnofind⟩]
      rw [hstep]
      refine ih (j + 1) _ (by omega) hw (by simp [hml]) ?_ ?_ ?_
      · intro hkj
        have hkj2 : k < j := by omega
        rw [List.getD_append _ _ _ _ (by omega)]
        exact hmk hkj2
      · have hkj3 : ¬ k < j + 1 ↔ ¬ k < j := by omega
        by_cases hkj : k < j
        · rw [if_pos hkj] at hel
          rw [if_pos (by omega)]
          simp only [List.length_append, List.length_cons, List.length_nil]
          omega
        · rw [if_neg hkj] at hel
          rw [if_neg (by omega)]
          simp only [List.length_append, List.length_cons, List.length_nil]
          omega
      · intro idx hidx
        simp only [List.length_append, List.length_cons, List.length_nil] at hidx
        by_cases hlt : idx < st.edges.length
        · obtain ⟨i, hi1, hi2, hi3, hi4⟩ := hent idx hlt
          exact ⟨i, by omega, hi2, by rwa [List.getD_append _ _ _ _ hlt],
            by rwa [List.getD_append _ _ _ _ hlt]⟩
        · have hidxeq : idx = st.edges.length := by omega
          subst hidxeq
          refine ⟨j, by omega, hjk, ?_, ?_⟩
          · rw [List.getD_append_right _ _ _ _ (le_refl _)]
            simp
          · rw [List.getD_append_right _ _ _ _ (le_refl _)]
            simp

/-- **C7 amended** — corrupt single edge is skipped silently: when the edge
pairs buffer is well-sized and exactly one pair (at index `k`) references an
out-of-range vertex while all other pairs are valid, non-degenerate and
pairwise distinct, edge reconstruction succeeds, creates exactly one fewer
edge than the declared count, maps nothing for index `k` — but reports no
skip warning at all: the skip branch of the source emits nothing through any
caller-visible result or log. -/
theorem C7_corrupt_edge_skipped_amended (ed : EdgesSection) (nverts k : Nat)
    (hlen : ed.verticesData.length = ed.count * 2)
    (hsm : ed.smoothData = none)
    (hk : k < ed.count)
    (hbad : ¬(ed.verticesData.getD (2 * k) 0 < nverts ∧
      ed.verticesData.getD (2 * k + 1) 0 < nverts))
    (hgood : ∀ i, i < ed.count → i ≠ k → ed.verticesData.getD (2 * i) 0 < nverts ∧
      ed.verticesData.getD (2 * i + 1) 0 < nverts ∧
      ed.verticesData.getD (2 * i) 0 ≠ ed.verticesData.getD (2 * i + 1) 0)
    (hdist : ∀ i, i < ed.count → ∀ j, j < ed.count → i ≠ j →
      pairEqB (ed.verticesData.getD (2 * i) 0, ed.verticesData.getD (2 * i + 1) 0)
        (ed.verticesData.getD (2 * j) 0, ed.verticesData.getD (2 * j + 1) 0) = false) :
    ∃ st, reconstructEdgesFromDirectData ed nverts = .ok st ∧
      st.edges.length + 1 = ed.count ∧ st.emap.getD k none = none ∧
      st.skipWarnings = 0 := by
  have hcnt : 0 < ed.count := by omega
  have hup : unpackU ed.verticesData (ed.count * 2) = .ok ed.verticesData := by
    unfold unpackU
    rw [if_pos hlen]
  have hne : ed.verticesData.isEmpty = false := by
    cases hvd : ed.verticesData with
    | nil => rw [hvd] at hlen; simp at hlen; omega
    | cons a l => simp [hvd]
  have hloop := reconEdgeStep_loop nverts ed.verticesData ed.count k hk hbad hgood hdist
    ed.count 0 ⟨[], [], 0⟩ (by omega) rfl rfl (by omega) (by simp)
    (by intro idx hidx; simp at hidx)
  refine ⟨(List.range ed.count).foldl (reconEdgeStep nverts ed.verticesData none)
    ⟨[], [], 0⟩, ?_, ?_, ?_, ?_⟩
  · unfold reconstructEdgesFromDirectData
    rw [if_neg (by omega), hsm, hup]
    show (if ed.verticesData.isEmpty = true then _ else _) = _
    rw [hne]
    simp
  · rw [List.range_eq_range']
    exact hloop.2.2.2
  · rw [List.range_eq_range']
    exact hloop.2.2.1
  · rw [List.range_eq_range']
    exact hloop.1

/-- **C7 counterexample** — the claim "reports exactly one skip warning" is
false: on the concrete 10-edge input whose pair 3 references vertex 999 of a
10-vertex mesh, decode of the edges section succeeds with 9 edges and no
mapping for the corrupt index, but the number of skip warnings reported is 0,
not 1 — the skip is silent.  The same buffer embedded in a full extension
(`extC7FullW`, declared edge count 10) makes the whole
`decode_gltf_extension_to_bmesh` pipeline succeed with exactly 9 edges and
no warning surfaced anywhere in the returned mesh. -/
theorem C7_corrupt_edge_counterexample :
    reconstructEdgesFromDirectData edgesC7W 10
      = .ok ⟨[⟨0, 1, true⟩, ⟨1, 2, true⟩, ⟨2, 3, true⟩, ⟨4, 5, true⟩, ⟨5, 6, true⟩,
              ⟨6, 7, true⟩, ⟨7, 8, true⟩, ⟨8, 9, true⟩, ⟨9, 0, true⟩],
             [some 0, some 1, some 2, none, some 3, some 4, some 5, some 6, some 7, some 8],
             0⟩ ∧
    extEdgesCount extC7FullW = 10 ∧
    decodeGltfExtensionToBmesh extC7FullW
      = some ⟨List.replicate 10 ⟨0, 0, 0⟩,
          [⟨0, 1, true⟩, ⟨1, 2, true⟩, ⟨2, 3, true⟩, ⟨4, 5, true⟩, ⟨5, 6, true⟩,
           ⟨6, 7, true⟩, ⟨7, 8, true⟩, ⟨8, 9, true⟩, ⟨9, 0, true⟩], [], none⟩ ∧
    (∀ st, reconstructEdgesFromDirectData edgesC7W 10 = .ok st →
      st.edges.length = 9 ∧ st.skipWarnings = 0 ∧ ¬st.skipWarnings = 1) := by
  refine ⟨by decide, by decide, by decide, ?_⟩
  intro st hst
  rw [show reconstructEdgesFromDirectData edgesC7W 10
      = .ok ⟨[⟨0, 1, true⟩, ⟨1, 2, true⟩, ⟨2, 3, true⟩, ⟨4, 5, true⟩, ⟨5, 6, true⟩,
              ⟨6, 7, true⟩, ⟨7, 8, true⟩, ⟨8, 9, true⟩, ⟨9, 0, true⟩],
             [some 0, some 1, some 2, none, some 3, some 4, some 5, some 6, some 7, some 8],
             0⟩ from by decide] at hst
  cases hst
  exact ⟨rfl, rfl, by decide⟩

/-- Witness for the amended C7 on the concrete 10-edge input with corrupt
pair 3. -/
theorem C7_corrupt_edge_skipped_amended_witness :
    edgesC7W.verticesData.length = edgesC7W.count * 2 ∧ (3 : Nat) < edgesC7W.count ∧
    ∃ st, reconstructEdgesFromDirectData edgesC7W 10 = .ok st ∧
      st.edges.length + 1 = edgesC7W.count ∧ st.emap.getD 3 none = none ∧
      st.skipWarnings = 0 := by
  refine ⟨by decide, by decide, ?_⟩
  exact C7_corrupt_edge_skipped_amended edgesC7W 10 3 (by decide) rfl (by decide)
    (by decide) (by decide) (by decide)

/-! ### C8 — radial loop navigation -/

theorem pairEqB_symm (p q : Nat × Nat) (h : pairEqB p q = true) : pairEqB q p = true := by
  simp only [pairEqB, Bool.or_eq_true, Bool.and_eq_true, beq_iff_eq] at h ⊢
  omega

theorem pairEqB_trans (p q r : Nat × Nat) (h1 : pairEqB p q = true)
    (h2 : pairEqB q r = true) : pairEqB p r = true := by
  simp only [pairEqB, Bool.or_eq_true, Bool.and_eq_true, beq_iff_eq] at h1 h2 ⊢
  omega

theorem mem_linkFaceIdxs (faces : List (List Nat)) (p : Nat × Nat) (k : Nat) :
    k ∈ linkFaceIdxs faces p ↔
      k < faces.length ∧ faceUsesPairB (faces.getD k []) p = true := by
  simp [linkFaceIdxs, List.mem_filter]

theorem faceUsesPairB_corner (f : List Nat) (ci : Nat) (hci : ci < f.length) :
    faceUsesPairB f (facePair f ci) = true := by
  simp only [faceUsesPairB, List.any_eq_true]
  exact ⟨ci, List.mem_range.mpr hci, pairEqB_refl _⟩

theorem linkFaceIdxs_nodup (faces : List (List Nat)) (p : Nat × Nat) :
    (linkFaceIdxs faces p).Nodup :=
  List.Nodup.filter _ (List.nodup_range _)

/-- Value of `_find_radial_loop_indices` when the edge has at least two
linked faces: the matching loop on the head of the other-faces list. -/
theorem findRadialLoopIndices_eq (m : BMeshSrc) (fi ci cur : Nat)
    (h1 : ¬(linkFaceIdxs m.faces (facePair (m.faces.getD fi []) ci)).length ≤ 1)
    (ofi : Nat) (rest : List Nat)
    (hf : (linkFaceIdxs m.faces (facePair (m.faces.getD fi []) ci)).filter
      (fun k => k ≠ fi) = ofi :: rest)
    (j : Nat)
    (hj : firstMatchingCorner (m.faces.getD ofi [])
      (facePair (m.faces.getD fi []) ci) = some j) :
    findRadialLoopIndices m fi ci cur = (loopIndexMap m ofi j, loopIndexMap m ofi j) := by
  simp only [findRadialLoopIndices]
  rw [if_neg h1]
  simp only [hf, hj]

/-- **C8 counterexample** — for a non-manifold edge shared by 3 faces the
claim "radial links degrade to self-reference" is false: on `threeFanW`
(edge `(0, 1)` shared by faces 0, 1, 2), the loop at corner 0 of face 0 gets
radial links pointing at the matching loop of face 1 (global loop index 3),
not at itself; the encoded topology entry for that loop carries the same
value in its `radial_next` and `radial_prev` components (indices 5 and 6). -/
theorem C8_radial_selfreference_counterexample :
    (linkFaceIdxs threeFanW.faces (facePair (threeFanW.faces.getD 0 []) 0)).length = 3 ∧
    findRadialLoopIndices threeFanW 0 0 (loopIndexMap threeFanW 0 0)
      = (loopIndexMap threeFanW 1 0, loopIndexMap threeFanW 1 0) ∧
    findRadialLoopIndices threeFanW 0 0 (loopIndexMap threeFanW 0 0)
      ≠ (loopIndexMap threeFanW 0 0, loopIndexMap threeFanW 0 0) ∧
    (loopTopologyEntry threeFanW 0 0).getD 5 0 = loopIndexMap threeFanW 1 0 ∧
    (loopTopologyEntry threeFanW 0 0).getD 6 0 = loopIndexMap threeFanW 1 0 ∧
    ¬(loopTopologyEntry threeFanW 0 0).getD 5 0 = loopIndexMap threeFanW 0 0 := by
  exact ⟨by decide, by decide, by decide, by decide, by decide, by decide⟩

/-- **C8 amended** — radial navigation as the encoder computes it, and as it
lands in the packed loops topology buffer: components 5 and 6 (`radial_next`,
`radial_prev`) of the loop's topology entry are exactly the two components of
`_find_radial_loop_indices`.  For a boundary edge (at most 1 linked face)
both radial links are the loop's own index; for an edge with 2 or more
linked faces (manifold or not) both links equal the index of the first
matching loop on the *first* other linked face — which for a 2-face manifold
edge is the unique matching loop on the unique other adjacent face.
Self-reference for edges with more than 2 faces does not occur (see the
counterexample); the `honce` hypothesis is the BMesh invariant that a face
references each edge at most once. -/
theorem C8_radial_navigation_amended (m : BMeshSrc) (fi ci : Nat)
    (hfi : fi < m.faces.length) (hci : ci < (m.faces.getD fi []).length)
    (honce : ∀ g ∈ m.faces, ∀ i1, i1 < g.length → ∀ i2, i2 < g.length →
      pairEqB (facePair g i1) (facePair g i2) = true → i1 = i2) :
    (loopTopologyEntry m fi ci).getD 5 0
      = (findRadialLoopIndices m fi ci (loopIndexMap m fi ci)).1 ∧
    (loopTopologyEntry m fi ci).getD 6 0
      = (findRadialLoopIndices m fi ci (loopIndexMap m fi ci)).2 ∧
    ((linkFaceIdxs m.faces (facePair (m.faces.getD fi []) ci)).length ≤ 1 →
      findRadialLoopIndices m fi ci (loopIndexMap m fi ci)
        = (loopIndexMap m fi ci, loopIndexMap m fi ci)) ∧
    (2 ≤ (linkFaceIdxs m.faces (facePair (m.faces.getD fi []) ci)).length →
      ∃ ofi j,
        ofi ∈ linkFaceIdxs m.faces (facePair (m.faces.getD fi []) ci) ∧ ofi ≠ fi ∧
        ((linkFaceIdxs m.faces (facePair (m.faces.getD fi []) ci)).length = 2 →
          ∀ g ∈ linkFaceIdxs m.faces (facePair (m.faces.getD fi []) ci),
            g ≠ fi → g = ofi) ∧
        j < (m.faces.getD ofi []).length ∧
        pairEqB (facePair (m.faces.getD ofi []) j)
          (facePair (m.faces.getD fi []) ci) = true ∧
        (∀ j2, j2 < (m.faces.getD ofi []).length →
          pairEqB (facePair (m.faces.getD ofi []) j2)
            (facePair (m.faces.getD fi []) ci) = true → j2 = j) ∧
        findRadialLoopIndices m fi ci (loopIndexMap m fi ci)
          = (loopIndexMap m ofi j, loopIndexMap m ofi j)) := by
  refine ⟨rfl, rfl, ?_, ?_⟩
  · intro h1
    simp only [findRadialLoopIndices]
    rw [if_pos h1]
  · intro h2
    have hfimem : fi ∈ linkFaceIdxs m.faces (facePair (m.faces.getD fi []) ci) :=
      (mem_linkFaceIdxs _ _ _).mpr ⟨hfi, faceUsesPairB_corner _ _ hci⟩
    have hnd := linkFaceIdxs_nodup m.faces (facePair (m.faces.getD fi []) ci)
    cases hf : (linkFaceIdxs m.faces (facePair (m.faces.getD fi []) ci)).filter
        (fun k => k ≠ fi) with
    | nil =>
      exfalso
      have hall : ∀ x ∈ linkFaceIdxs m.faces (facePair (m.faces.getD fi []) ci),
          x = fi := by
        intro x hx
        by_contra hne
        have hxf : x ∈ (linkFaceIdxs m.faces (facePair (m.faces.getD fi []) ci)).filter
            (fun k => k ≠ fi) := List.mem_filter.mpr ⟨hx, by simp [hne]⟩
        rw [hf] at hxf
        cases hxf
      have hrep := List.eq_replicate_of_mem hall
      rw [hrep] at hnd
      rw [List.nodup_replicate] at hnd
      rw [hrep, List.length_replicate] at h2
      omega
    | cons ofi rest =>
      have hofif : ofi ∈ (linkFaceIdxs m.faces (facePair (m.faces.getD fi []) ci)).filter
          (fun k => k ≠ fi) := by
        rw [hf]
        simp
      have hofimem := (List.mem_filter.mp hofif).1
      have hofine : ofi ≠ fi := by
        have := (List.mem_filter.mp hofif).2
        simpa using this
      have hofilt : ofi < m.faces.length := ((mem_linkFaceIdxs _ _ _).mp hofimem).1
      have huses : faceUsesPairB (m.faces.getD ofi [])
          (facePair (m.faces.getD fi []) ci) = true :=
        ((mem_linkFaceIdxs _ _ _).mp hofimem).2
      have hfsome : (firstMatchingCorner (m.faces.getD ofi [])
          (facePair (m.faces.getD fi []) ci)).isSome = true := by
        rw [firstMatchingCorner, List.find?_isSome]
        simp only [faceUsesPairB, List.any_eq_true] at huses
        obtain ⟨i, hi1, hi2⟩ := huses
        exact ⟨i, hi1, hi2⟩
      obtain ⟨j, hj⟩ := Option.isSome_iff_exists.mp hfsome
      have hj2 := hj
      unfold firstMatchingCorner at hj2
      have hjpair : pairEqB (facePair (m.faces.getD ofi []) j)
          (facePair (m.faces.getD fi []) ci) = true := by
        have := List.find?_some hj2
        simpa using this
      have hjlt : j < (m.faces.getD ofi []).length := by
        have := List.mem_of_find?_eq_some hj2
        simpa using this
      have hgmem : m.faces.getD ofi [] ∈ m.faces := by
        rw [List.getD_eq_getElem m.faces [] hofilt]
        exact List.getElem_mem hofilt
      refine ⟨ofi, j, hofimem, hofine, ?_, hjlt, hjpair, ?_, ?_⟩
      · intro hlen2 g hg hgne
        by_contra hne2
        have hsub : ({fi, ofi, g} : Finset ℕ) ⊆
            (linkFaceIdxs m.faces (facePair (m.faces.getD fi []) ci)).toFinset := by
          intro x hx
          rw [List.mem_toFinset]
          simp only [Finset.mem_insert, Finset.mem_singleton] at hx
          rcases hx with rfl | rfl | rfl
          · exact hfimem
          · exact hofimem
          · exact hg
        have hcard3 : ({fi, ofi, g} : Finset ℕ).card = 3 :=
          Finset.card_eq_three.mpr ⟨fi, ofi, g, Ne.symm hofine, Ne.symm hgne,
            fun hc => hne2 hc.symm, rfl⟩
        have hle := Finset.card_le_card hsub
        have htf := List.toFinset_card_le
          (linkFaceIdxs m.faces (facePair (m.faces.getD fi []) ci))
        omega
      · intro j2 hj2lt hj2pair
        exact honce (m.faces.getD ofi []) hgmem j2 hj2lt j hjlt
          (pairEqB_trans _ _ _ hj2pair (pairEqB_symm _ _ hjpair))
      · exact findRadialLoopIndices_eq m fi ci _ (by omega) ofi rest hf j hj

/-- Witness for the amended C8 on two triangles sharing the manifold edge
`(0, 1)`: the radial links of loop 0 (face 0, corner 0) land on a matching
loop of the other face — concretely global loop index 3 (face 1, corner 0) —
and the encoded topology entry carries that index in components 5 and 6. -/
theorem C8_radial_navigation_amended_witness :
    (∃ ofi j, findRadialLoopIndices twoTriW 0 0 (loopIndexMap twoTriW 0 0)
      = (loopIndexMap twoTriW ofi j, loopIndexMap twoTriW ofi j)) ∧
    findRadialLoopIndices twoTriW 0 0 (loopIndexMap twoTriW 0 0)
      = (loopIndexMap twoTriW 1 0, loopIndexMap twoTriW 1 0) ∧
    (loopTopologyEntry twoTriW 0 0).getD 5 0 = loopIndexMap twoTriW 1 0 ∧
    (loopTopologyEntry twoTriW 0 0).getD 6 0 = loopIndexMap twoTriW 1 0 := by
  have h := C8_radial_navigation_amended twoTriW 0 0 (by decide) (by decide) (by decide)
  obtain ⟨ofi, j, _, _, _, _, _, _, hrad⟩ := h.2.2.2 (by decide)
  exact ⟨⟨ofi, j, hrad⟩, by decide, by decide, by decide⟩

/-! ### C1 — round-trip identity -/

theorem encodeVerticesToBuffers_eq (m : BMeshSrc) (h : m.verts.isEmpty = false) :
    ∃ X, encodeVerticesToBuffers m = some ⟨m.verts.length, vecsToFlat m.verts, X⟩ := by
  refine ⟨if (((List.range m.verts.length).map fun v =>
      vertLinkEdgeIdxs m.edges v).flatten).isEmpty = true then none
    else some (((List.range m.verts.length).map fun v =>
      vertLinkEdgeIdxs m.edges v).flatten), ?_⟩
  simp [encodeVerticesToBuffers, h]

theorem encodeEdgesToBuffers_eq (pv : Bool) (m : BMeshSrc)
    (h : m.edges.isEmpty = false) :
    ∃ A B, encodeEdgesToBuffers pv m
      = some ⟨m.edges.length, pairsToFlat m.edges, A, B, none⟩ := by
  refine ⟨if ((m.edges.map fun p => linkFaceIdxs m.faces p).flatten).isEmpty = true then none
      else some ((m.edges.map fun p => linkFaceIdxs m.faces p).flatten),
    if (m.edges.map fun p =>
        manifoldByte (calculateEdgeManifoldStatus pv m.faces p)).isEmpty = true then none
      else some (m.edges.map fun p =>
        manifoldByte (calculateEdgeManifoldStatus pv m.faces p)), ?_⟩
  simp [encodeEdgesToBuffers, h]

theorem encodeLoopsToBuffers_eq (m : BMeshSrc) (h : totalLoopsSrc m ≠ 0) :
    ∃ T, encodeLoopsToBuffers m = some ⟨totalLoopsSrc m, T,
      match m.uvs with | none => none | some uvl => some (pairsToFlat uvl)⟩ := by
  refine ⟨((List.range m.faces.length).map fun fi =>
    ((List.range (m.faces.getD fi []).length).map fun ci =>
      loopTopologyEntry m fi ci).flatten).flatten, ?_⟩
  rw [encodeLoopsToBuffers]
  rw [if_neg h]

theorem encodeFacesToBuffers_eq (m : BMeshSrc) (h : m.faces.isEmpty = false) :
    ∃ E L N, encodeFacesToBuffers m = some ⟨m.faces.length, m.faces.flatten,
      facesOffsetsAux m.faces 0, E, L, N, none⟩ := by
  refine ⟨if ((m.faces.map fun f => (List.range f.length).map fun i =>
        (findEdgeIdx m.edges (facePair f i)).getD 0).flatten).isEmpty = true then none
      else some ((m.faces.map fun f => (List.range f.length).map fun i =>
        (findEdgeIdx m.edges (facePair f i)).getD 0).flatten),
    if (List.range (totalLoopsSrc m)).isEmpty = true then none
      else some (List.range (totalLoopsSrc m)),
    if (vecsToFlat m.faceNormals).isEmpty = true then none
      else some (vecsToFlat m.faceNormals), ?_⟩
  simp [encodeFacesToBuffers, h]

theorem reconstructVertices_encoded (vs : List Vec3) (X : Option (List Nat))
    (h : vs ≠ []) :
    reconstructVerticesFromDirectData ⟨vs.length, vecsToFlat vs, X⟩ = .ok vs := by
  have hlen : vs.length ≠ 0 := by
    intro hc
    exact h (List.length_eq_zero.mp hc)
  have hup : unpackF (vecsToFlat vs) (vs.length * 3) = .ok (vecsToFlat vs) := by
    unfold unpackF
    rw [if_pos (by rw [vecsToFlat_length]; ring)]
  unfold reconstructVerticesFromDirectData
  rw [if_neg hlen, hup]
  show Except.ok (flatToVecs vs.length (vecsToFlat vs)) = Except.ok vs
  rw [flatToVecs_vecsToFlat]

theorem reconstructEdges_encoded_ok (edges : List (Nat × Nat))
    (A B : Option (List Nat)) (nverts : Nat) :
    ∃ st, reconstructEdgesFromDirectData
      ⟨edges.length, pairsToFlat edges, A, B, none⟩ nverts = .ok st := by
  unfold reconstructEdgesFromDirectData
  by_cases h0 : edges.length = 0
  · rw [if_pos h0]
    exact ⟨_, rfl⟩
  · rw [if_neg h0]
    have hup : unpackU (pairsToFlat edges) (edges.length * 2) = .ok (pairsToFlat edges) := by
      unfold unpackU
      rw [if_pos (by rw [pairsToFlat_length]; ring)]
    rw [hup]
    show ∃ st, (if (pairsToFlat edges).isEmpty = true then _ else _) = Except.ok st
    have hpe : (pairsToFlat edges).isEmpty = false := by
      cases hc : pairsToFlat edges with
      | nil =>
        exfalso
        have hpl := pairsToFlat_length edges
        rw [hc, List.length_nil] at hpl
        omega
      | cons a l => simp
    rw [hpe]
    simp

theorem applyLoopData_encoded_ok (dfaces : List DFace) (lc : Nat) (T : List Nat)
    (uvs : Option (List (ℚ × ℚ))) (hlen : ∀ u, uvs = some u → u.length = lc) :
    ∃ r, applyLoopDataFromDirectData dfaces ⟨lc, T,
      match uvs with | none => none | some uvl => some (pairsToFlat uvl)⟩ = .ok r := by
  cases uvs with
  | none => exact ⟨none, rfl⟩
  | some uvl =>
    have hup : unpackF (pairsToFlat uvl) (lc * 2) = .ok (pairsToFlat uvl) := by
      unfold unpackF
      rw [if_pos (by rw [pairsToFlat_length, hlen uvl rfl]; ring)]
    unfold applyLoopDataFromDirectData
    show ∃ r, (unpackF (pairsToFlat uvl) (lc * 2)).bind _ = Except.ok r
    rw [hup]
    exact ⟨_, rfl⟩

theorem sum_take_succ (fs : List (List Nat)) (j : Nat) (hj : j < fs.length) :
    ((fs.take (j + 1)).map List.length).sum
      = ((fs.take j).map List.length).sum + (fs.getD j []).length := by
  rw [List.take_succ, List.getElem?_eq_getElem hj, Option.toList_some, List.map_append,
    List.sum_append, List.getD_eq_getElem fs [] hj]
  simp

/-- One successful iteration of the face-reconstruction loop on encoder
output: the CSR slice for face `j` is exactly the source face, every vertex
resolves, and `bm.faces.new` succeeds. -/
theorem reconFaceStep_encoded (nverts : Nat) (faces : List (List Nat))
    (hwf1 : ∀ f ∈ faces, 3 ≤ f.length ∧ f.Nodup ∧ ∀ v ∈ f, v < nverts)
    (hwf2 : faces.Pairwise fun f g => listSetEqB f g = false)
    (j : Nat) (hj : j < faces.length) (es : List DEdge) (pfx : List DFace)
    (fm : List (Option Nat))
    (hpfx : pfx = (faces.take j).map fun f => ⟨f, false⟩) :
    reconFaceStep nverts (facesOffsetsAux faces 0) faces.flatten none ⟨es, pfx, fm⟩ j
      = ⟨addFaceEdges es (faces.getD j []), pfx ++ [⟨faces.getD j [], false⟩],
         fm ++ [some pfx.length]⟩ := by
  obtain ⟨h3len, hnd, hbound⟩ := hwf1 (faces.getD j []) (by
    rw [List.getD_eq_getElem faces [] hj]
    exact List.getElem_mem hj)
  have hstop : (facesOffsetsAux faces 0).getD (j + 1) 0
      - (facesOffsetsAux faces 0).getD j 0 = (faces.getD j []).length := by
    rw [facesOffsetsAux_getD faces 0 j (by omega),
      facesOffsetsAux_getD faces 0 (j + 1) (by omega), sum_take_succ faces j hj]
    omega
  have hslice : ((faces.flatten.drop ((facesOffsetsAux faces 0).getD j 0)).take
      ((facesOffsetsAux faces 0).getD (j + 1) 0 - (facesOffsetsAux faces 0).getD j 0)).filter
        (fun v => decide (v < nverts)) = faces.getD j [] := by
    rw [hstop, facesOffsetsAux_getD faces 0 j (by omega)]
    rw [Nat.zero_add, flatten_drop_take faces j hj]
    rw [List.filter_eq_self]
    intro v hv
    exact decide_eq_true (hbound v hv)
  have hsx : faceSetExists pfx (faces.getD j []) = false := by
    rw [hpfx]
    unfold faceSetExists
    rw [List.any_eq_false]
    intro g hg
    rw [List.mem_map] at hg
    obtain ⟨f2, hf2mem, hf2eq⟩ := hg
    subst hf2eq
    rw [List.mem_iff_getElem] at hf2mem
    obtain ⟨idx, hidxlt, hidxeq⟩ := hf2mem
    have hidxj : idx < j := by
      have hidxlt2 := hidxlt
      rw [List.length_take] at hidxlt2
      omega
    have hidxf : idx < faces.length := by omega
    have hgetele : (faces.take j)[idx] = faces[idx] := List.getElem_take faces
    have hpw := (List.pairwise_iff_getElem.mp hwf2) idx j hidxf hj hidxj
    show ¬listSetEqB f2 (faces.getD j []) = true
    rw [hgetele] at hidxeq
    rw [← hidxeq, List.getD_eq_getElem faces [] hj]
    simp [hpw]
  unfold reconFaceStep
  simp only [hslice]
  rw [if_pos h3len, if_pos ⟨hnd, hsx⟩]

theorem reconFaceStep_loop (nverts : Nat) (faces : List (List Nat))
    (hwf1 : ∀ f ∈ faces, 3 ≤ f.length ∧ f.Nodup ∧ ∀ v ∈ f, v < nverts)
    (hwf2 : faces.Pairwise fun f g => listSetEqB f g = false) :
    ∀ n j es fm, j + n = faces.length →
      ∃ es2 fm2, (List.range' j n).foldl
        (reconFaceStep nverts (facesOffsetsAux faces 0) faces.flatten none)
        ⟨es, (faces.take j).map fun f => ⟨f, false⟩, fm⟩
        = ⟨es2, faces.map fun f => ⟨f, false⟩, fm2⟩ := by
  intro n
  induction n with
  | zero =>
    intro j es fm hjn
    rw [show List.range' j 0 = ([] : List Nat) from rfl, List.foldl_nil]
    have hj : j = faces.length := by omega
    subst hj
    rw [List.take_length]
    exact ⟨es, fm, rfl⟩
  | succ n ih =>
    intro j es fm hjn
    have hj : j < faces.length := by omega
    rw [List.range'_succ j n 1, List.foldl_cons]
    rw [reconFaceStep_encoded nverts faces hwf1 hwf2 j hj es _ fm rfl]
    have hext : ((faces.take j).map fun f => (⟨f, false⟩ : DFace))
        ++ [⟨faces.getD j [], false⟩] = (faces.take (j + 1)).map fun f => ⟨f, false⟩ := by
      rw [List.take_succ, List.getElem?_eq_getElem hj]
      rw [List.map_append]
      rw [List.getD_eq_getElem faces [] hj]
      rfl
    rw [hext]
    exact ih (j + 1) _ _ (by omega)

theorem reconstructFaces_encoded (faces : List (List Nat)) (nverts : Nat)
    (E L : Option (List Nat)) (N : Option (List ℚ)) (edges0 : List DEdge)
    (hne : faces ≠ [])
    (hwf1 : ∀ f ∈ faces, 3 ≤ f.length ∧ f.Nodup ∧ ∀ v ∈ f, v < nverts)
    (hwf2 : faces.Pairwise fun f g => listSetEqB f g = false) :
    ∃ es2 fm2, reconstructFacesFromDirectData
      ⟨faces.length, faces.flatten, facesOffsetsAux faces 0, E, L, N, none⟩ nverts edges0
      = .ok ⟨es2, faces.map fun f => ⟨f, false⟩, fm2⟩ := by
  have hlen0 : faces.length ≠ 0 := by
    intro hc
    exact hne (List.length_eq_zero.mp hc)
  have hoff : unpackU (facesOffsetsAux faces 0) (faces.length + 1)
      = .ok (facesOffsetsAux faces 0) := by
    unfold unpackU
    rw [if_pos (facesOffsetsAux_length faces 0)]
  have hoffne : (facesOffsetsAux faces 0).isEmpty = false := by
    cases hc : facesOffsetsAux faces 0 with
    | nil =>
      exfalso
      have := facesOffsetsAux_length faces 0
      rw [hc] at this
      simp at this
    | cons a l => simp
  have hmax : (facesOffsetsAux faces 0).getD faces.length 0 = faces.flatten.length := by
    rw [facesOffsetsAux_getD faces 0 faces.length (le_refl _), List.take_length]
    simpa using (flatten_length_sum faces).symm
  have hflat : unpackU faces.flatten ((facesOffsetsAux faces 0).getD faces.length 0)
      = .ok faces.flatten := by
    unfold unpackU
    rw [if_pos hmax.symm]
  have hflne : faces.flatten.isEmpty = false := by
    have hlpos : 0 < faces.flatten.length := by
      rw [flatten_length_sum]
      rcases List.exists_mem_of_ne_nil faces hne with ⟨f, hf⟩
      have h3 := (hwf1 f hf).1
      have hmem : f.length ∈ faces.map List.length := List.mem_map_of_mem _ hf
      exact lt_of_lt_of_le (by omega)
        (List.single_le_sum (by intro x _; omega) _ hmem)
    cases hc : faces.flatten with
    | nil => rw [hc] at hlpos; simp at hlpos
    | cons a l => simp
  obtain ⟨es2, fm2, hloop⟩ := reconFaceStep_loop nverts faces hwf1 hwf2 faces.length 0
    edges0 [] (by omega)
  rw [show ((faces.take 0).map fun f => (⟨f, false⟩ : DFace)) = [] from rfl] at hloop
  refine ⟨es2, fm2, ?_⟩
  unfold reconstructFacesFromDirectData
  rw [if_neg hlen0, hoff]
  show (if (facesOffsetsAux faces 0).isEmpty = true then _ else _) = _
  rw [hoffne]
  simp only [Bool.false_eq_true, if_false]
  rw [hflat]
  show (if faces.flatten.isEmpty = true then _ else _) = _
  rw [hflne]
  simp only [Bool.false_eq_true, if_false]
  rw [List.range_eq_range']
  show Except.ok (List.foldl (reconFaceStep nverts (facesOffsetsAux faces 0)
    faces.flatten none) ⟨edges0, [], []⟩ (List.range' 0 faces.length)) = _
  rw [hloop]

/-- **C1** — Round-trip identity: for every well-formed mesh source with at
least one face (faces are triangles/quads/n-gons: at least 3 pairwise
distinct in-range vertices, the structural invariants every BMesh
satisfies), decoding the encoder's output succeeds and reproduces the mesh:
the decoded vertex and face counts equal the source counts exactly, every
decoded vertex position is within 1e-6 per component of the source position
(in fact exactly equal — the f32 payload is moved verbatim), and the vertex
set of decoded face `i` equals the vertex set of source face `i`. -/
theorem C1_roundtrip_identity (m : BMeshSrc) (hwf : WFMesh m) (hne : m.faces ≠ []) :
    ∃ d, decodeGltfExtensionToBmesh (encodeBmeshToGltfExtension true m) = some d ∧
      d.verts.length = m.verts.length ∧
      d.faces.length = m.faces.length ∧
      (∀ i, i < m.verts.length →
        |(d.verts.getD i ⟨0, 0, 0⟩).x - (m.verts.getD i ⟨0, 0, 0⟩).x| ≤ 1 / 1000000 ∧
        |(d.verts.getD i ⟨0, 0, 0⟩).y - (m.verts.getD i ⟨0, 0, 0⟩).y| ≤ 1 / 1000000 ∧
        |(d.verts.getD i ⟨0, 0, 0⟩).z - (m.verts.getD i ⟨0, 0, 0⟩).z| ≤ 1 / 1000000) ∧
      (∀ i, i < m.faces.length → ∀ v,
        v ∈ (d.faces.getD i ⟨[], false⟩).verts ↔ v ∈ m.faces.getD i []) := by
  obtain ⟨hwf1, hwf2, hwfe, hwfe2, hcov, huv⟩ := hwf
  obtain ⟨f0, hf0⟩ := List.exists_mem_of_ne_nil m.faces hne
  have h3f0 := (hwf1 f0 hf0).1
  have hvne : m.verts ≠ [] := by
    have hf0ne : f0 ≠ [] := by
      intro hc
      rw [hc] at h3f0
      simp at h3f0
    obtain ⟨v0, hv0⟩ := List.exists_mem_of_ne_nil f0 hf0ne
    have := (hwf1 f0 hf0).2.2 v0 hv0
    intro hc
    rw [hc] at this
    simp at this
  have hene : m.edges ≠ [] := by
    have hsome := hcov f0 hf0 0 (by omega)
    intro hc
    rw [hc] at hsome
    simp [findEdgeIdx] at hsome
  have hl0 : totalLoopsSrc m ≠ 0 := by
    have hmem : f0.length ∈ m.faces.map List.length := List.mem_map_of_mem _ hf0
    have hle := List.single_le_sum (by intro x _; omega : ∀ x ∈ m.faces.map List.length, 0 ≤ x)
      _ hmem
    unfold totalLoopsSrc
    omega
  have hvie : m.verts.isEmpty = false := by
    cases hc : m.verts with
    | nil => exact absurd hc hvne
    | cons a l => simp
  have heie : m.edges.isEmpty = false := by
    cases hc : m.edges with
    | nil => exact absurd hc hene
    | cons a l => simp
  have hfie : m.faces.isEmpty = false := by
    cases hc : m.faces with
    | nil => exact absurd hc hne
    | cons a l => simp
  obtain ⟨X, hv⟩ := encodeVerticesToBuffers_eq m hvie
  obtain ⟨A, B, he⟩ := encodeEdgesToBuffers_eq true m heie
  obtain ⟨T, hl⟩ := encodeLoopsToBuffers_eq m hl0
  obtain ⟨E, L, N, hfq⟩ := encodeFacesToBuffers_eq m hfie
  have henc : encodeBmeshToGltfExtension true m
      = ⟨some ⟨m.verts.length, vecsToFlat m.verts, X⟩,
         some ⟨m.edges.length, pairsToFlat m.edges, A, B, none⟩,
         some ⟨totalLoopsSrc m, T,
           match m.uvs with | none => none | some uvl => some (pairsToFlat uvl)⟩,
         some ⟨m.faces.length, m.faces.flatten, facesOffsetsAux m.faces 0, E, L, N, none⟩⟩ := by
    unfold encodeBmeshToGltfExtension
    rw [hfie]
    simp only [Bool.false_eq_true, if_false]
    rw [hv, he, hl, hfq]
  have hrv := reconstructVertices_encoded m.verts X hvne
  obtain ⟨est, hest⟩ := reconstructEdges_encoded_ok m.edges A B m.verts.length
  obtain ⟨es2, fm2, hfr⟩ := reconstructFaces_encoded m.faces m.verts.length E L N est.edges
    hne hwf1 hwf2
  obtain ⟨r, har⟩ := applyLoopData_encoded_ok (m.faces.map fun f => ⟨f, false⟩)
    (totalLoopsSrc m) T m.uvs huv
  have hdec : decodeGltfExtensionToBmesh (encodeBmeshToGltfExtension true m)
      = some ⟨m.verts, es2, m.faces.map fun f => ⟨f, false⟩, r⟩ := by
    rw [henc]
    unfold decodeGltfExtensionToBmesh
    rw [if_neg (by simp [extIsEmpty]), if_pos (by simp [hasExplicitTopologyData])]
    unfold decodeEncodedDataToBmesh
    have hlt : 0 < totalLoopsSrc m := by omega
    simp only [hrv, hvie, hest, hfr, har, hlt, Bool.false_eq_true, if_false, if_true]
  refine ⟨⟨m.verts, es2, m.faces.map fun f => ⟨f, false⟩, r⟩, hdec, rfl, by simp, ?_, ?_⟩
  · intro i _
    refine ⟨?_, ?_, ?_⟩ <;> rw [sub_self, abs_zero] <;> norm_num
  · intro i hi v
    have hget := getD_map_lt (fun f => (⟨f, false⟩ : DFace)) m.faces i hi [] ⟨[], false⟩
    show v ∈ ((m.faces.map fun f => (⟨f, false⟩ : DFace)).getD i ⟨[], false⟩).verts ↔ _
    rw [hget]

/-- Witness for C1 on the single-triangle mesh. -/
theorem C1_roundtrip_identity_witness :
    WFMesh triMeshW ∧ triMeshW.faces ≠ [] ∧
    ∃ d, decodeGltfExtensionToBmesh (encodeBmeshToGltfExtension true triMeshW) = some d ∧
      d.verts.length = 3 ∧ d.faces.length = 1 := by
  have hwf : WFMesh triMeshW := by decide
  have hne : triMeshW.faces ≠ [] := by decide
  obtain ⟨d, hd, hv, hf, _, _⟩ := C1_roundtrip_identity triMeshW hwf hne
  refine ⟨hwf, hne, d, hd, ?_, ?_⟩
  · rw [hv]
    decide
  · rw [hf]
    decide

end AriaBmesh
